import Mathlib

/-!
Verification of the AnyTS interpreter (C++ sources under src/).

Shallow embedding conventions:
  * C++ std::string values are embedded as List Char (abbreviated Str below);
    indices, find/rfind and substr are modelled explicitly.
  * IEEE-754 doubles are embedded by the inductive Dbl: finite values are exact
    rationals (rounding of inexact results never matters for any property
    proved here and is documented at each spot where it could), plus NaN and
    signed infinities.  +0.0 and -0.0 are merged into the rational 0.
  * Machine integers use Nat / Int with explicit reductions mod 2^w where the
    C++ relies on wrap-around.
  * Recursion between the expression evaluator and the statement executor is
    made structural with an explicit fuel parameter; running out of fuel is a
    distinguished outcome (a model artifact, never identified with any real
    behavior of the program).
-/

namespace AnyTS

/-- C++ std::string contents, embedded as a list of characters. -/
abbrev Str := List Char

/-- Shorthand for turning a Lean string literal into the embedded type. -/
def str (s : String) : Str := s.data

/-! ### std::string helpers (interpreter.cpp uses find / rfind / substr / trim) -/

/-- The character set used by the static trim helper in interpreter.cpp
    (`find_first_not_of(" \t\r\n")`). -/
def isTrimWs (c : Char) : Bool :=
  c == ' ' || c == '\t' || c == '\r' || c == '\n'

/-- `trim` from interpreter.cpp: drop leading and trailing " \t\r\n". -/
def trim (s : Str) : Str :=
  ((s.dropWhile isTrimWs).reverse.dropWhile isTrimWs).reverse

/-- std::isspace in the default C locale (used by the tokenizer). -/
def isSpaceCh (c : Char) : Bool :=
  c == ' ' || c == '\t' || c == '\n' || c == '\x0B' || c == '\x0C' || c == '\r'

/-- `s.rfind(pfx, 0) == 0`, i.e. `pfx` is a prefix of `s`. -/
def strStartsWith (s pfx : Str) : Bool :=
  s.take pfx.length == pfx

/-- `s[i]` for an in-range index; index == size yields the terminating NUL,
    mirroring `std::string::operator[]`. -/
def charAt (s : Str) (i : ℕ) : Char := s.getD i (Char.ofNat 0)

/-- `s.find(c, from)`: index of the first occurrence of `c` at or after
    position `from`; `none` models `npos`.  A start position past the end
    simply finds nothing, as in C++. -/
def findCharFrom (s : Str) (c : Char) (start : ℕ) : Option ℕ :=
  match (s.drop start).findIdx? (fun x => x == c) with
  | some i => some (start + i)
  | none => none

/-- `s.rfind(c)`: index of the last occurrence of `c`; `none` models `npos`. -/
def rfindChar (s : Str) (c : Char) : Option ℕ :=
  match s.reverse.findIdx? (fun x => x == c) with
  | some i => some (s.length - 1 - i)
  | none => none

/-- `s.substr(pos, len)` for in-range `pos` (every call site checks, or the
    surrounding analysis documents the out-of-range behavior). -/
def substr (s : Str) (pos len : ℕ) : Str := (s.drop pos).take len

/-- `s.substr(pos)`: from `pos` to the end. -/
def substrFrom (s : Str) (pos : ℕ) : Str := s.drop pos

/-- `std::getline(stream, part, sep)` splitting, used for the parameter list:
    an empty stream yields no parts, and a trailing separator does not yield a
    trailing empty part (getline fails at end of stream). -/
def splitChar (sep : Char) : Str → List Str
  | [] => []
  | c :: rest =>
      if c == sep then [] :: splitChar sep rest
      else
        match splitChar sep rest with
        | t :: ts => (c :: t) :: ts
        | [] => [[c]]

/-- `std::to_string` for the naturals that occur in error messages. -/
def natToStr (n : ℕ) : Str := Nat.toDigits 10 n

/-! ### IEEE-754 doubles

Finite doubles are modelled as exact rationals: every concrete double value
any claim exercises is exactly representable, and no claim depends on the
rounding of an inexact operation.  +0.0 and -0.0 are merged into the
rational 0 (no claim observes the sign of zero).  NaN and the two infinities
are distinct constructors; note the NaN *double payload* is separate from the
`ValueType.NaN` *tag* of the interpreter's value type. -/

inductive Dbl where
  | num (q : ℚ)
  | nan
  | inf (neg : Bool)
deriving DecidableEq

/-- IEEE `==` on doubles: NaN compares unequal to everything. -/
def Dbl.beq : Dbl → Dbl → Bool
  | .num a, .num b => a == b
  | .inf a, .inf b => a == b
  | _, _ => false

/-- IEEE `<` on doubles: any comparison involving NaN is false. -/
def Dbl.ltb : Dbl → Dbl → Bool
  | .num a, .num b => decide (a < b)
  | .num _, .inf t => !t
  | .inf s, .num _ => s
  | .inf s, .inf t => s && !t
  | _, _ => false

/-- IEEE `<=` on doubles: any comparison involving NaN is false. -/
def Dbl.leb : Dbl → Dbl → Bool
  | .num a, .num b => decide (a ≤ b)
  | .num _, .inf t => !t
  | .inf s, .num _ => s
  | .inf s, .inf t => s || !t
  | _, _ => false

/-- IEEE addition (exact-rational idealization for finite operands). -/
def Dbl.add : Dbl → Dbl → Dbl
  | .nan, _ => .nan
  | _, .nan => .nan
  | .num a, .num b => .num (a + b)
  | .inf s, .inf t => if s == t then .inf s else .nan
  | .inf s, .num _ => .inf s
  | .num _, .inf t => .inf t

/-- IEEE subtraction (exact-rational idealization for finite operands). -/
def Dbl.sub : Dbl → Dbl → Dbl
  | .nan, _ => .nan
  | _, .nan => .nan
  | .num a, .num b => .num (a - b)
  | .inf s, .inf t => if s == t then .nan else .inf s
  | .inf s, .num _ => .inf s
  | .num _, .inf t => .inf (!t)

/-- IEEE multiplication (exact-rational idealization for finite operands). -/
def Dbl.mul : Dbl → Dbl → Dbl
  | .nan, _ => .nan
  | _, .nan => .nan
  | .num a, .num b => .num (a * b)
  | .inf s, .inf t => .inf (s != t)
  | .inf s, .num b => if b = 0 then .nan else .inf (s != decide (b < 0))
  | .num a, .inf t => if a = 0 then .nan else .inf (t != decide (a < 0))

/-- IEEE division (exact-rational idealization for finite operands;
    the sign of a zero result is not tracked). -/
def Dbl.div : Dbl → Dbl → Dbl
  | .nan, _ => .nan
  | _, .nan => .nan
  | .num a, .num b =>
      if b = 0 then (if a = 0 then .nan else .inf (decide (a < 0))) else .num (a / b)
  | .inf _, .inf _ => .nan
  | .inf s, .num b => .inf (s != decide (b < 0))
  | .num _, .inf _ => .num 0

/-- Truncation toward zero, as C++ integer conversion and fmod use it. -/
def ratTrunc (q : ℚ) : ℤ := if 0 ≤ q then ⌊q⌋ else -⌊-q⌋

/-- `std::fmod`: IEEE-exact (fmod never rounds), so the rational model is
    exact for finite operands. -/
def Dbl.fmodD : Dbl → Dbl → Dbl
  | .num a, .num b => if b = 0 then .nan else .num (a - b * (ratTrunc (a / b) : ℚ))
  | .num a, .inf _ => .num a
  | _, _ => .nan

/-- Largest finite double; string-to-number parses past it are out of range
    (ts.cpp then falls back to `std::stod`, whose `out_of_range` is caught
    and turned into 0.0). -/
def dblMax : ℚ := (2 ^ 53 - 1) * 2 ^ 971

/-- Digits of a decimal-digit prefix together with the remaining characters. -/
def takeDigits (s : Str) : Str × Str :=
  (s.takeWhile Char.isDigit, s.dropWhile Char.isDigit)

/-- Value of a string of decimal digits. -/
def digitsVal (ds : Str) : ℕ :=
  ds.foldl (fun acc c => acc * 10 + (c.toNat - 48)) 0

/-- ASCII lower-casing, for strtod's case-insensitive inf / nan forms. -/
def lowerCh (c : Char) : Char :=
  if 'A' ≤ c && c ≤ 'Z' then Char.ofNat (c.toNat + 32) else c

/-- The decimal part of the `strtod` grammar, applied after whitespace and an
    optional sign have been consumed: `digits [. digits] [(e|E) [sign] digits]`
    (at least one digit overall before any exponent).  Returns the parsed
    magnitude, or none if no conversion is possible.  Hexadecimal forms are
    omitted: the tokenizer never produces a token that starts with `0x`
    followed by hex digits as a single token, and no claim exercises them. -/
def strtodMagnitude (s : Str) : Option ℚ :=
  let (ip, rest1) := takeDigits s
  let (fp, rest2) :=
    match rest1 with
    | '.' :: r => takeDigits r
    | _ => ([], rest1)
  if ip.isEmpty && fp.isEmpty then none
  else
    let mant : ℚ := (digitsVal ip : ℚ) + (digitsVal fp : ℚ) / (10 : ℚ) ^ fp.length
    match rest2 with
    | 'e' :: r | 'E' :: r =>
        let (esign, r2) :=
          match r with
          | '-' :: rr => (true, rr)
          | '+' :: rr => (false, rr)
          | _ => (false, r)
        let (eds, _) := takeDigits r2
        if eds.isEmpty then some mant
        else
          let e : ℤ := if esign then -(digitsVal eds : ℤ) else (digitsVal eds : ℤ)
          some (mant * (10 : ℚ) ^ e)
    | _ => some mant

/-- `std::strtod` / `std::stod` on a whole token: skip leading whitespace,
    optional sign, then a number, or a case-insensitive `inf`/`infinity` or
    `nan` form.  Trailing characters are ignored (prefix parse).  A finite
    result outside the double range models the ERANGE / out_of_range path as
    `none` (every caller in ts.cpp / interpreter.cpp turns that case into the
    same fallback as a failed parse). -/
def strtodParse (s0 : Str) : Option Dbl :=
  let s1 := s0.dropWhile isSpaceCh
  let (neg, s2) :=
    match s1 with
    | '-' :: r => (true, r)
    | '+' :: r => (false, r)
    | _ => (false, s1)
  let low := s2.map lowerCh
  if strStartsWith low (str "inf") then some (.inf neg)
  else if strStartsWith low (str "nan") then some Dbl.nan
  else
    match strtodMagnitude s2 with
    | none => none
    | some m =>
        if m > dblMax then none
        else some (.num (if neg then -m else m))

/-! ### The tagged runtime value (src/include/ts.h, src/source/ts.cpp) -/

/-- The `TS::ValueType` enumeration (src/include/ts.h lines 43-51). -/
inductive ValueType where
  | Number
  | String
  | Boolean
  | Null
  | Undefined
  | NaN
deriving DecidableEq

/-- The `std::variant<double, std::string, bool>` payload of a Value. -/
inductive Payload where
  | d (x : Dbl)
  | s (t : Str)
  | b (v : Bool)
deriving DecidableEq

/-- `TS::Value`: a tag plus a variant payload. -/
structure Value where
  type : ValueType
  data : Payload
deriving DecidableEq

/-- `Value::Value()` — the default constructor produces the Null tag with a
    `false` payload (src/source/ts.cpp line 9). -/
def Value.mkNull : Value := ⟨.Null, .b false⟩

/-- `Value::Value(double)` — the Number tag. -/
def Value.mkNum (x : Dbl) : Value := ⟨.Number, .d x⟩

/-- `Value::Value(const std::string &)` — the String tag. -/
def Value.mkStr (t : Str) : Value := ⟨.String, .s t⟩

/-- `Value::Value(bool)` — the Boolean tag. -/
def Value.mkBool (v : Bool) : Value := ⟨.Boolean, .b v⟩

/-- `std::variant::operator==`: same alternative and equal contents, with the
    IEEE equality on the double alternative (a NaN payload is unequal to
    itself, as in C++). -/
def Payload.beq : Payload → Payload → Bool
  | .d x, .d y => Dbl.beq x y
  | .s x, .s y => x == y
  | .b x, .b y => x == y
  | _, _ => false

/-- `Value::toNumber` (src/source/ts.cpp): Number payload as is; String via a
    strtod prefix parse with 0.0 on failure or range error; Boolean as 1/0;
    every other tag 0.0.  The catch-all also covers tag/payload combinations
    that no constructor produces. -/
def Value.toNumber (v : Value) : Dbl :=
  match v.type, v.data with
  | .Number, .d x => x
  | .String, .s t => (strtodParse t).getD (.num 0)
  | .Boolean, .b bv => if bv then .num 1 else .num 0
  | _, _ => .num 0

/-- `Value::toBool` (src/source/ts.cpp): Boolean payload as is; Number tested
    `!= 0.0` in IEEE terms (so a NaN payload is truthy); String tested
    nonempty; every other tag false. -/
def Value.toBool (v : Value) : Bool :=
  match v.type, v.data with
  | .Boolean, .b bv => bv
  | .Number, .d x => !(Dbl.beq x (.num 0))
  | .String, .s t => !t.isEmpty
  | _, _ => false

/-- `std::to_string`-style rendering of an integer. -/
def intToStr (i : ℤ) : Str :=
  if i < 0 then '-' :: natToStr i.natAbs else natToStr i.natAbs

/-- `ostringstream << double` (default %g-style formatting, 6 significant
    digits).  Rendered exactly for the values that can reach an output in
    this development: NaN, infinities, and integers of magnitude below 10^6.
    Other finite values (which no claim ever prints) are rendered as an
    explicit placeholder rather than silently mis-rendered. -/
def fmtDbl : Dbl → Str
  | .nan => str "nan"
  | .inf neg => if neg then str "-inf" else str "inf"
  | .num q =>
      if q.den = 1 && q.num.natAbs < 1000000 then intToStr q.num
      else str "<non-integral double>"

/-- `Value::toString` (src/source/ts.cpp): NaN and Undefined tags have their
    own spellings; the Null tag shares the `default:` case of the switch. -/
def Value.toString (v : Value) : Str :=
  match v.type, v.data with
  | .Number, .d x => fmtDbl x
  | .String, .s t => t
  | .Boolean, .b bv => if bv then str "true" else str "false"
  | .NaN, _ => str "NaN"
  | .Undefined, _ => str "undefined"
  | _, _ => str "null"

/-! ### Environment (TS::Environment is std::unordered_map<std::string, Value>)

An unordered map is embedded as an association list with unique keys; lookup
takes the first match and insertion overwrites in place or appends. -/

/-- `env.find(name)` / `TS::getVar`. -/
def lookupA {α : Type} : List (Str × α) → Str → Option α
  | [], _ => none
  | (k, v) :: rest, n => if k == n then some v else lookupA rest n

/-- `env[name] = value` / `TS::setVar`: overwrite or append. -/
def setA {α : Type} : List (Str × α) → Str → α → List (Str × α)
  | [], n, v => [(n, v)]
  | (k, w) :: rest, n, v =>
      if k == n then (n, v) :: rest else (k, w) :: setA rest n v

/-! ### Tokenizer (the `tokenize` lambda in evalSimpleExpression,
     src/source/interpreter.cpp lines 25-76) -/

/-- Characters a numeric literal keeps consuming: digits and dots. -/
def numCh (c : Char) : Bool := c.isDigit || c == '.'

/-- Characters an identifier keeps consuming: alphanumerics, `_` and `.`
    (the dot admits names such as `console.log`).  Note `$` may *start* an
    identifier in the C++ but is not consumed by this set. -/
def identCh (c : Char) : Bool := c.isAlphanum || c == '_' || c == '.'

/-- The string-literal scan: starting just after the opening quote, consume
    through the first occurrence of the quote character not preceded by a
    backslash (the check reads `s[i-1]`, so `prev` starts as the quote
    itself).  Returns (consumed characters including the closing quote,
    remaining characters).  An unterminated literal consumes to the end. -/
def strLitScan (q prev : Char) : Str → Str × Str
  | [] => ([], [])
  | c :: rest =>
      if c == q && prev != '\\' then ([c], rest)
      else (c :: (strLitScan q c rest).1, (strLitScan q c rest).2)

/-- The tokenizer loop.  Faithful to the C++ loop, with one reading aid: in
    the numeric branch the first character always satisfies `numCh`, and in
    the identifier branch a first character that is alphabetic or `_` always
    satisfies `identCh`, so the token is written `c :: rest.takeWhile _`.
    A `$` first character enters the C++ identifier branch but is not in the
    consume set, so the C++ loop makes no progress and pushes empty tokens
    forever — genuine non-termination, modelled as `none`.  The fuel makes
    the recursion structural (so that the kernel can evaluate it); every
    iteration consumes at least one character, so the fuel-out `none` is
    unreachable through `tokenize` below. -/
def tokenizeF : ℕ → Str → Option (List Str)
  | 0, _ => none
  | _ + 1, [] => some []
  | f + 1, c :: rest =>
      if isSpaceCh c then tokenizeF f rest
      else if c.isDigit
          || (c == '.' && (match rest with | r :: _ => r.isDigit | [] => false)) then
        match tokenizeF f (rest.dropWhile numCh) with
        | some ts => some ((c :: rest.takeWhile numCh) :: ts)
        | none => none
      else if c.isAlpha || c == '_' then
        match tokenizeF f (rest.dropWhile identCh) with
        | some ts => some ((c :: rest.takeWhile identCh) :: ts)
        | none => none
      else if c == '$' then
        none
      else if c == '"' || c == '\'' then
        match tokenizeF f (strLitScan c c rest).2 with
        | some ts => some ((c :: (strLitScan c c rest).1) :: ts)
        | none => none
      else
        match tokenizeF f rest with
        | some ts => some ([c] :: ts)
        | none => none

/-- The `tokenize` lambda of evalSimpleExpression (interpreter.cpp
    lines 25-76). -/
def tokenize (s : Str) : Option (List Str) := tokenizeF (s.length + 1) s

/-! ### Expression compiler (shunting yard with function-call markers,
     src/source/interpreter.cpp lines 78-193) -/

/-- The `precedence` lambda (lines 78-97). -/
def precedence (op : Str) : ℤ :=
  if op == str "**" then 7
  else if op == str "*" || op == str "/" || op == str "%" then 6
  else if op == str "+" || op == str "-" then 5
  else if op == str "<" || op == str ">" || op == str "<=" || op == str ">=" then 4
  else if op == str "==" || op == str "!=" || op == str "===" || op == str "!==" then 3
  else if op == str "&&" then 2
  else if op == str "||" then 1
  else -1

/-- The `isOperator` lambda (src/source/interpreter.cpp lines 99-105).  Its
    C++ return statement ends in a comma expression: the whole operator-name
    disjunction is evaluated and then discarded, and the lambda returns the
    final string literal, a non-null `const char *`.  Converted to bool at
    every use, `isOperator` is therefore true for *every* token, which is
    what this definition records. -/
def isOperator (_tok : Str) : Bool := true

/-- The pop loop of the operator branch: pop operators while the stack top
    satisfies `isOperator` and has precedence ≥ the incoming token.  Returns
    (tokens popped to output in order, remaining stack). -/
def popGe (tokPrec : ℤ) : List Str → List Str × List Str
  | [] => ([], [])
  | topE :: rest =>
      if isOperator topE && decide (precedence topE ≥ tokPrec) then
        (topE :: (popGe tokPrec rest).1, (popGe tokPrec rest).2)
      else ([], topE :: rest)

/-- The pop loop of the `,` and `)` branches: pop to the nearest `(`,
    leaving the `(` itself on the stack. -/
def popToParen : List Str → List Str × List Str
  | [] => ([], [])
  | topE :: rest =>
      if topE != str "(" then
        (topE :: (popToParen rest).1, (popToParen rest).2)
      else ([], topE :: rest)

/-- One pass of the shunting-yard loop (lines 114-188), with the previous
    token threaded for the two look-behind checks and the next tokens
    available for the call-detection look-ahead.  Branches are in source
    order; because `isOperator` is constantly true, the `(` and `)` branches
    are unreachable, but they are translated all the same. -/
def syLoop : List Str → Option Str → List Str → List Str → List ℤ → List Str × List Str
  | [], _, out, ops, _ => (out, ops)
  | tok :: rest, prev, out, ops, argc =>
      let c0 := charAt tok 0
      if c0.isDigit || c0 == '"' || c0 == '\'' || c0.isAlpha || c0 == '_' || c0 == '$' then
        if (match rest with | nxt :: _ => nxt == str "(" | [] => false) then
          syLoop rest (some tok) out (tok :: ops) argc
        else
          syLoop rest (some tok) (out ++ [tok]) ops argc
      else if tok == str "," then
        let pr := popToParen ops
        let argc2 := match argc with | a :: t => (a + 1) :: t | [] => ([] : List ℤ)
        syLoop rest (some tok) (out ++ pr.1) pr.2 argc2
      else if isOperator tok then
        let pg := popGe (precedence tok) ops
        syLoop rest (some tok) (out ++ pg.1) (tok :: pg.2) argc
      else if tok == str "(" then
        let argc2 :=
          match prev with
          | some p =>
              if (charAt p 0).isAlpha || charAt p 0 == '_' || charAt p 0 == '$' then
                (1 : ℤ) :: argc
              else argc
          | none => argc
        syLoop rest (some tok) out (tok :: ops) argc2
      else if tok == str ")" then
        let pr := popToParen ops
        let ops2 :=
          match pr.2 with
          | p :: restOps => if p == str "(" then restOps else p :: restOps
          | [] => ([] : List Str)
        match ops2 with
        | f :: restOps2 =>
            if !isOperator f && f != str "(" then
              let argcV := match argc with | a :: _ => a | [] => (0 : ℤ)
              let argc2 := match argc with | _ :: t => t | [] => ([] : List ℤ)
              syLoop rest (some tok)
                (out ++ pr.1 ++ [('#' :: intToStr argcV), ('@' :: f)]) restOps2 argc2
            else
              syLoop rest (some tok) (out ++ pr.1) ops2 argc
        | [] => syLoop rest (some tok) (out ++ pr.1) ops2 argc
      else
        syLoop rest (some tok) out ops argc

/-- The compiled postfix sequence: run the loop, then flush the remaining
    operator stack to the output (lines 189-193). -/
def shuntOutput (toks : List Str) : List Str :=
  let r := syLoop toks none [] [] []
  r.1 ++ r.2

/-! ### Host model: the handful of C-library calls whose IEEE results no
     claim depends on are kept abstract rather than fixed arbitrarily. -/

/-- Abstracts `std::pow`, the trigonometric/exponential library calls, the
    value of `std::rand()/RAND_MAX`, and the double approximations of pi and
    e used by `init`.  Every theorem below holds for every host model. -/
structure HostModel where
  libm1 : String → Dbl → Dbl
  libm2 : String → Dbl → Dbl → Dbl
  rand : Dbl
  piVal : ℚ
  eVal : ℚ

/-- A concrete host model for closed evaluations (its choices are never
    observable in any theorem's statement). -/
def H0 : HostModel :=
  { libm1 := fun _ _ => Dbl.num 0
    libm2 := fun _ _ _ => Dbl.num 0
    rand := Dbl.num 0
    piVal := 0
    eVal := 0 }

/-- `applyOpVal` (src/source/interpreter.cpp lines 198-243): operator
    semantics on two popped Values.  `**` goes through `std::pow`, kept
    abstract in the host model. -/
def applyOpVal (H : HostModel) (op : Str) (a b : Value) : Value :=
  if op == str "+" then
    if a.type == ValueType.String || b.type == ValueType.String then
      Value.mkStr (a.toString ++ b.toString)
    else Value.mkNum (Dbl.add a.toNumber b.toNumber)
  else if op == str "-" then Value.mkNum (Dbl.sub a.toNumber b.toNumber)
  else if op == str "*" then Value.mkNum (Dbl.mul a.toNumber b.toNumber)
  else if op == str "/" then
    Value.mkNum
      (if Dbl.beq b.toNumber (.num 0) then Dbl.nan else Dbl.div a.toNumber b.toNumber)
  else if op == str "%" then Value.mkNum (Dbl.fmodD a.toNumber b.toNumber)
  else if op == str "==" then Value.mkBool (Payload.beq a.data b.data)
  else if op == str "!=" then Value.mkBool (!(Payload.beq a.data b.data))
  else if op == str "===" then
    Value.mkBool (a.type == b.type && Payload.beq a.data b.data)
  else if op == str "!==" then
    Value.mkBool (a.type != b.type || !(Payload.beq a.data b.data))
  else if op == str "<" then Value.mkBool (Dbl.ltb a.toNumber b.toNumber)
  else if op == str ">" then Value.mkBool (Dbl.ltb b.toNumber a.toNumber)
  else if op == str "<=" then Value.mkBool (Dbl.leb a.toNumber b.toNumber)
  else if op == str ">=" then Value.mkBool (Dbl.leb b.toNumber a.toNumber)
  else if op == str "&&" then Value.mkBool (a.toBool && b.toBool)
  else if op == str "||" then Value.mkBool (a.toBool || b.toBool)
  else if op == str "**" then
    Value.mkNum (H.libm2 ("pow") a.toNumber b.toNumber)
  else Value.mkNull

/-! ### Interpreter state (src/project/include/interpreter.h) -/

/-- `Interpreter::FunctionDef`: parameter names, parallel type tags, and the
    body as raw source lines. -/
structure FunctionDef where
  params : List Str
  paramTypes : List Str
  bodyLines : List Str
deriving DecidableEq

/-- The native callables registered by `Interpreter::init`.  The registry maps
    names to these; their semantics live in `runBuiltin`. -/
inductive BuiltinName where
  | consoleLog
  | mathSqrt
  | mathSin
  | mathCos
  | mathTan
  | mathPow
  | mathRandom
  | mathAbs
  | mathFloor
  | mathRound
  | mathCeil
  | mathTrunc
  | mathExp
  | mathLog
  | mathAtan
  | mathAsin
  | mathAcos
  | mathAtan2
  | mathMax
  | mathMin
  | sizeofB
  | assertB
deriving DecidableEq

/-- `Interpreter::Context`: variables, builtin registry, user functions.
    (The C++ field `variables` is spelled `vars` here only because
    `variables` is a reserved word in Lean 4.) -/
structure Context where
  vars : List (Str × Value)
  builtins : List (Str × BuiltinName)
  userFunctions : List (Str × FunctionDef)
deriving DecidableEq

/-- An entry of the callable table handed to `evalSimpleExpression`: either a
    registered native builtin, or the wrapper lambda around a user function
    (which looks the definition up, by name, in the context it captured). -/
inductive Callable where
  | builtin (bn : BuiltinName)
  | user (name : Str)
deriving DecidableEq

/-- View a builtin registry as a callable table. -/
def builtinCallables (bs : List (Str × BuiltinName)) : List (Str × Callable) :=
  bs.map (fun p => (p.1, Callable.builtin p.2))

/-- The callable-table merge performed by the `let` / `if` / static-property
    handlers: copy the builtins, then insert a wrapper for every user
    function (overwriting any builtin of the same name, as map assignment
    does). -/
def mkCallables (ctx : Context) : List (Str × Callable) :=
  ctx.userFunctions.foldl
    (fun acc uf => setA acc uf.1 (Callable.user uf.1))
    (builtinCallables ctx.builtins)

/-! ### Execution outcomes

`std::cin` is the list of not-yet-read console lines; printed text is the
list of chunks passed to `OS::print` / `OS::printLine` (the latter appends a
newline).  An outcome is a normal return, a C++ exception in flight (only a
`try`/`catch` in the source may intercept it), undefined behavior (popping an
empty `std::stack`, indexing a vector out of range — nothing can intercept
it), a genuine non-termination of the C++ (the tokenizer's `$` loop), or
fuel exhaustion (an artifact of the embedding, never a program behavior). -/

abbrev Stdin := List Str
abbrev Output := List Str

inductive Outcome (α : Type) where
  | ok (a : α) (s : Stdin) (o : Output)
  | exn (msg : Str) (s : Stdin) (o : Output)
  | ub
  | hang
  | nofuel
deriving DecidableEq

/-- Prepend already-produced output to a later outcome. -/
def withOut {α : Type} (o : Output) : Outcome α → Outcome α
  | .ok a s o2 => .ok a s (o ++ o2)
  | .exn m s o2 => .exn m s (o ++ o2)
  | .ub => .ub
  | .hang => .hang
  | .nofuel => .nofuel

/-- `OS::printLine(m)`: one output chunk with a newline. -/
def printLineO (m : Str) : Output := [m ++ str "\n"]

/-- `std::stoi`: optional whitespace and sign, then digits; anything else
    throws `std::invalid_argument`. -/
def stoiParse (s0 : Str) : Option ℤ :=
  let s1 := s0.dropWhile isSpaceCh
  let (neg, s2) :=
    match s1 with
    | '-' :: r => (true, r)
    | '+' :: r => (false, r)
    | _ => (false, s1)
  let (ds, _) := takeDigits s2
  if ds.isEmpty then none
  else some (if neg then -(digitsVal ds : ℤ) else (digitsVal ds : ℤ))

/-- `if (!expr.empty() && expr.back() == ';') expr.pop_back();` -/
def stripSemi (e : Str) : Str :=
  if !e.isEmpty && e.getLastD (Char.ofNat 0) == ';' then e.dropLast else e

/-- `Value::size()` from src/project/include/ts.h, used by the `sizeof`
    builtin: the shallow struct size plus the heap allocation of a string
    beyond the small-string-optimization threshold.  The constants 48 and 15
    are the libstdc++/x86-64 platform values; `capacity()` is modelled as the
    string length.  No claim depends on any of this. -/
def Value.sizeModel (v : Value) : ℕ :=
  48 +
    (match v.type, v.data with
     | .String, .s t => if t.length > 15 then t.length + 1 else 0
     | _, _ => 0)

/-- `std::max` folded over arguments as Math.max does: `(m < x) ? x : m`. -/
def dmax (m x : Dbl) : Dbl := if Dbl.ltb m x then x else m

/-- `std::min` folded over arguments as Math.min does: `(x < m) ? x : m`. -/
def dmin (m x : Dbl) : Dbl := if Dbl.ltb x m then x else m

/-- The `console.log` output: arguments separated by single spaces, then a
    newline (each `OS::print` call is one chunk). -/
def consoleLogOut : List Value → Output
  | [] => [str "\n"]
  | [a] => [a.toString, str "\n"]
  | a :: rest => a.toString :: str " " :: consoleLogOut rest

/-! ### Pure pieces of the statement executor -/

/-- Argument resolution in the bare-call handler (lines 1040-1069 and
    1086-1115 of interpreter.cpp): keyword, number (std::stod with all
    failures caught), quoted string, else a soft environment lookup. -/
def resolveArg (vars : List (Str × Value)) (argT : Str) : Value :=
  if argT == str "true" then Value.mkBool true
  else if argT == str "false" then Value.mkBool false
  else if argT == str "null" then Value.mkNull
  else
    match strtodParse argT with
    | some d => Value.mkNum d
    | none =>
        if argT.length ≥ 2 &&
            ((charAt argT 0 == '"' && argT.getLastD (Char.ofNat 0) == '"') ||
             (charAt argT 0 == '\'' && argT.getLastD (Char.ofNat 0) == '\'')) then
          Value.mkStr ((argT.drop 1).dropLast)
        else
          match lookupA vars argT with
          | some v => v
          | none => Value.mkNull

/-- State of the argument-splitting loop (lines 1001-1078). -/
structure ArgSplitSt where
  args : List Value
  cur : Str
  inString : Bool
  stringChar : Char
  parenDepth : ℤ

/-- One character of the argument-splitting loop. -/
def argSplitStep (vars : List (Str × Value)) (st : ArgSplitSt) (c : Char) : ArgSplitSt :=
  if (c == '"' || c == '\'') && !st.inString then
    { st with inString := true, stringChar := c, cur := st.cur ++ [c] }
  else if st.inString && c == st.stringChar then
    { st with inString := false, cur := st.cur ++ [c] }
  else if !st.inString && c == '(' then
    { st with parenDepth := st.parenDepth + 1, cur := st.cur ++ [c] }
  else if !st.inString && c == ')' then
    { st with parenDepth := st.parenDepth - 1, cur := st.cur ++ [c] }
  else if !st.inString && st.parenDepth == 0 && c == ',' then
    let argT := trim st.cur
    { st with
      args := if argT.isEmpty then st.args else st.args ++ [resolveArg vars argT]
      cur := [] }
  else { st with cur := st.cur ++ [c] }

/-- Split and resolve a bare call's arguments (including the trailing
    argument handling of lines 1080-1118). -/
def parseArgs (vars : List (Str × Value)) (argsStr : Str) : List Value :=
  let st := argsStr.foldl (argSplitStep vars) ⟨[], [], false, Char.ofNat 0, 0⟩
  if st.cur.isEmpty then st.args
  else
    let argT := trim st.cur
    if argT.isEmpty then st.args else st.args ++ [resolveArg vars argT]

/-- The per-parameter runtime type check of the bare-call handler
    (lines 1141-1160): the first failing parameter's error message, if any. -/
def typeCheckFirstErr : List Str → List Str → List Value → Option Str
  | p :: ps, t :: ts, a :: rest =>
      if t != str "any" &&
          !((t == str "number" && a.type == ValueType.Number) ||
            (t == str "string" && a.type == ValueType.String) ||
            (t == str "boolean" && a.type == ValueType.Boolean)) then
        some (str "TypeError: Argument '" ++ p ++ str "' expected " ++ t ++
              str ", got " ++ a.toString)
      else typeCheckFirstErr ps ts rest
  | _, _, _ => none

/-- Bind parameter names to argument values into a variables map
    (`TS::setVar` per parameter). -/
def bindParams : List (Str × Value) → List Str → List Value → List (Str × Value)
  | vars, p :: ps, a :: rest => bindParams (setA vars p a) ps rest
  | vars, _, _ => vars

/-- Parse the parameter list of a function header: comma-split, trim, strip
    an optional `: type` annotation (default `any`).  Returns names and the
    parallel type tags (lines 638-659). -/
def parseParams (paramsStr : Str) : List Str × List Str :=
  (splitChar ',' paramsStr).foldl
    (fun acc param =>
      let p := trim param
      if p.isEmpty then acc
      else
        match findCharFrom p ':' 0 with
        | some cp => (acc.1 ++ [trim (p.take cp)], acc.2 ++ [trim (substrFrom p (cp + 1))])
        | none => (acc.1 ++ [p], acc.2 ++ [str "any"]))
    ([], [])

/-- The function-definition body capture (lines 676-691): read console lines
    while tracking brace depth on the *trimmed* line; the closing line is not
    stored; nonempty trimmed lines inside the body are stored.  Also used
    verbatim by the static-method path of the class handler (lines 911-927).
    The depth argument is at least 1 whenever this is called. -/
def captureFnBody (depth : ℤ) : Stdin → List Str → List Str × Stdin
  | [], acc => (acc, [])
  | bodyLine :: restIn, acc =>
      let t := trim bodyLine
      let d1 := if (findCharFrom t '{' 0).isSome then depth + 1 else depth
      if (findCharFrom t '}' 0).isSome then
        if d1 - 1 ≤ 0 then (acc, restIn)
        else captureFnBody (d1 - 1) restIn (acc ++ (if t.isEmpty then [] else [t]))
      else captureFnBody d1 restIn (acc ++ (if t.isEmpty then [] else [t]))

/-- The if-branch block capture (lines 766-782): depth is tracked on the raw
    line and raw lines are stored. -/
def captureIfBlock (depth : ℤ) : Stdin → List Str → List Str × Stdin
  | [], acc => (acc, [])
  | l :: restIn, acc =>
      let d1 := if (findCharFrom l '{' 0).isSome then depth + 1 else depth
      if (findCharFrom l '}' 0).isSome then
        if d1 - 1 == 0 then (acc, restIn)
        else captureIfBlock (d1 - 1) restIn (acc ++ (if d1 - 1 > 0 then [l] else []))
      else captureIfBlock d1 restIn (acc ++ (if d1 > 0 then [l] else []))

/-- The else-branch block capture (lines 799-814): the depth counter starts
    at 0 (the brace of an `else {` line was already consumed by the peek), and
    the loop has no depth condition — it ends only at a line that brings the
    counter to exactly 0, or at end of input. -/
def captureElseBlock (edepth : ℤ) : Stdin → List Str → List Str × Stdin
  | [], acc => (acc, [])
  | l :: restIn, acc =>
      let d1 := if (findCharFrom l '{' 0).isSome then edepth + 1 else edepth
      if (findCharFrom l '}' 0).isSome then
        if d1 - 1 == 0 then (acc, restIn)
        else captureElseBlock (d1 - 1) restIn (acc ++ (if d1 - 1 > 0 then [l] else []))
      else captureElseBlock d1 restIn (acc ++ (if d1 > 0 then [l] else []))

/-- The class-body capture (lines 831-849): depth on the raw line, trimmed
    lines stored (with no emptiness filter). -/
def captureClassBody (depth : ℤ) : Stdin → List Str → List Str × Stdin
  | [], acc => (acc, [])
  | l :: restIn, acc =>
      let d1 := if (findCharFrom l '{' 0).isSome then depth + 1 else depth
      if (findCharFrom l '}' 0).isSome then
        if d1 - 1 == 0 then (acc, restIn)
        else captureClassBody (d1 - 1) restIn (acc ++ (if d1 - 1 > 0 then [trim l] else []))
      else captureClassBody d1 restIn (acc ++ (if d1 > 0 then [trim l] else []))

/-- The function-definition handler (lines 624-694).  It performs no
    evaluation, so it is a pure function of the line, the context and the
    console stream.  When the header has no `(`, `parenOpen` is `npos` and
    the C++ computes `substr(npos + 1, npos - npos - 1)`, which by `size_t`
    wrap-around is `substr(0, npos)`: the whole line becomes the parameter
    list; `find('{', npos)` then finds nothing, so no body is captured. -/
def functionStmt (line : Str) (fns : List (Str × FunctionDef)) (s : Stdin) :
    List (Str × FunctionDef) × Stdin :=
  let nameStart := match findCharFrom line ' ' 0 with | some i => i + 1 | none => 0
  match findCharFrom line '(' nameStart with
  | some po =>
      let funcName := trim (substr line nameStart (po - nameStart))
      let pcOpt := findCharFrom line ')' po
      let paramsStr :=
        match pcOpt with
        | some pc => substr line (po + 1) (pc - po - 1)
        | none => substrFrom line (po + 1)
      let pp := parseParams paramsStr
      let searchFrom := match pcOpt with | some pc => pc | none => line.length
      match findCharFrom line '{' searchFrom with
      | some bo =>
          let afterBrace := trim (substrFrom line (bo + 1))
          let cap := captureFnBody 1 s (if afterBrace.isEmpty then [] else [afterBrace])
          (setA fns funcName ⟨pp.1, pp.2, cap.1⟩, cap.2)
      | none =>
          (setA fns funcName ⟨pp.1, pp.2, []⟩, s)
  | none =>
      let funcName := trim (substrFrom line nameStart)
      let pp := parseParams line
      (setA fns funcName ⟨pp.1, pp.2, []⟩, s)

/-! ### The evaluator and the statement executor

All functions below are structurally recursive on a fuel parameter; every
cross-call passes the predecessor.  The parameter `g` is the context object
captured by reference by the `assert` builtin at `init` time (the process
global); it is threaded read-only.  Its variables can go stale relative to
the running context during a nested block, but the only consumers of an
evaluation environment are unreachable branches of the RPN loop (see
`isOperator`), so the difference is unobservable.  The parameter `cctx` of
the evaluator is the context captured by reference by the user-function
wrapper lambdas of the calling statement handler. -/

mutual

/-- `evalSimpleExpression` (lines 18-323): tokenize, compile to postfix, run
    the RPN loop. -/
def evalSimpleExpression (H : HostModel) : ℕ → Context → Str →
    List (Str × Value) → List (Str × Callable) → Context → Stdin → Outcome Value
  | 0, _, _, _, _, _, _ => .nofuel
  | n + 1, g, expr, env, callables, cctx, s =>
      match tokenize expr with
      | none => .hang
      | some toks => rpnLoop H n g (shuntOutput toks) none [] env callables cctx s

termination_by structural n => n

/-- The RPN evaluation loop (lines 245-322), with the previous output element
    threaded for the argument-count look-behind.  Branches in source order;
    because `isOperator` is constantly true, the first branch handles every
    element: pop two operands — undefined behavior on a shorter stack — and
    push `applyOpVal`.  All later branches are dead code, translated
    faithfully.  At the end of the output sequence, return the stack top, or
    the default (Null) Value for an empty stack. -/
def rpnLoop (H : HostModel) : ℕ → Context → List Str → Option Str → List Value →
    List (Str × Value) → List (Str × Callable) → Context → Stdin → Outcome Value
  | 0, _, _, _, _, _, _, _, _ => .nofuel
  | _ + 1, _, [], _, vals, _, _, _, s =>
      .ok (match vals with | v :: _ => v | [] => Value.mkNull) s []
  | n + 1, g, tok :: rest, prev, vals, env, callables, cctx, s =>
      if isOperator tok then
        match vals with
        | b2 :: a2 :: rst =>
            rpnLoop H n g rest (some tok) (applyOpVal H tok a2 b2 :: rst) env callables cctx s
        | _ => .ub
      else if charAt tok 0 == '@' then
        let fname := substrFrom tok 1
        let acOpt : Option ℤ :=
          match prev with
          | some p =>
              if charAt p 0 == '#' then stoiParse (substrFrom p 1) else some 0
          | none => some 0
        match acOpt with
        | none => .exn (str "stoi") s []
        | some ac =>
            if ac < 0 then .ub
            else if vals.length < ac.toNat then .ub
            else
              let args := (vals.take ac.toNat).reverse
              let vals2 := vals.drop ac.toNat
              match lookupA callables fname with
              | some c =>
                  match runCallable H n g c cctx args s with
                  | .ok v s2 o2 =>
                      withOut o2 (rpnLoop H n g rest (some tok) (v :: vals2) env callables cctx s2)
                  | .exn m s2 o2 => .exn m s2 o2
                  | .ub => .ub
                  | .hang => .hang
                  | .nofuel => .nofuel
              | none =>
                  rpnLoop H n g rest (some tok) (Value.mkNull :: vals2) env callables cctx s
      else if charAt tok 0 == '#' then
        rpnLoop H n g rest (some tok) vals env callables cctx s
      else if (charAt tok 0 == '"' && tok.getLastD (Char.ofNat 0) == '"') ||
              (charAt tok 0 == '\'' && tok.getLastD (Char.ofNat 0) == '\'') then
        rpnLoop H n g rest (some tok) (Value.mkStr ((tok.drop 1).dropLast) :: vals) env callables cctx s
      else if tok == str "true" then
        rpnLoop H n g rest (some tok) (Value.mkBool true :: vals) env callables cctx s
      else if tok == str "false" then
        rpnLoop H n g rest (some tok) (Value.mkBool false :: vals) env callables cctx s
      else if tok == str "undefined" || tok == str "null" then
        rpnLoop H n g rest (some tok) (Value.mkNull :: vals) env callables cctx s
      else if tok == str "NaN" then
        rpnLoop H n g rest (some tok) (Value.mkNum Dbl.nan :: vals) env callables cctx s
      else
        match strtodParse tok with
        | some d =>
            rpnLoop H n g rest (some tok) (Value.mkNum d :: vals) env callables cctx s
        | none =>
            match lookupA env tok with
            | some v => rpnLoop H n g rest (some tok) (v :: vals) env callables cctx s
            | none => rpnLoop H n g rest (some tok) (Value.mkNull :: vals) env callables cctx s

termination_by structural n => n

/-- Invoke a callable-table entry: a native builtin directly, or the wrapper
    lambda around a user function (lines 571-609 and twins): arity check with
    a printed error and a default return; otherwise copy the captured
    context, bind parameters, and run the body. -/
def runCallable (H : HostModel) : ℕ → Context → Callable → Context → List Value →
    Stdin → Outcome Value
  | 0, _, _, _, _, _ => .nofuel
  | n + 1, g, .builtin bn, _, args, s => runBuiltin H n g bn args s
  | n + 1, g, .user name, cctx, args, s =>
      match lookupA cctx.userFunctions name with
      | none => .exn (str "map::at") s []
      | some fd =>
          if args.length != fd.params.length then
            .ok Value.mkNull s
              (printLineO (str "Error: Function '" ++ name ++ str "' expects " ++
                natToStr fd.params.length ++ str " args, got " ++ natToStr args.length))
          else
            userBodyLoop H n g fd.bodyLines
              { cctx with vars := bindParams cctx.vars fd.params args } cctx s

termination_by structural n => n

/-- The wrapper's body loop: a (trimmed) line starting with `return`
    evaluates the remainder — against the local variables but with the
    *builtins-only* callable table (`ctx.builtins` is passed where the merged
    table was presumably meant) — and returns immediately; any other line is
    executed as a statement against the local context.  Falling off the end
    returns the default Value. -/
def userBodyLoop (H : HostModel) : ℕ → Context → List Str → Context → Context →
    Stdin → Outcome Value
  | 0, _, _, _, _, _ => .nofuel
  | _ + 1, _, [], _, _, s => .ok Value.mkNull s []
  | n + 1, g, bodyLine :: rest, localCtx, cctx, s =>
      let t := trim bodyLine
      if strStartsWith t (str "return") then
        let retExpr := stripSemi (trim (substrFrom t 6))
        evalSimpleExpression H n g retExpr localCtx.vars (builtinCallables cctx.builtins) cctx s
      else
        match executeLine H n g bodyLine localCtx s with
        | .ok ctx2 s2 o2 => withOut o2 (userBodyLoop H n g rest ctx2 cctx s2)
        | .exn m s2 o2 => .exn m s2 o2
        | .ub => .ub
        | .hang => .hang
        | .nofuel => .nofuel

termination_by structural n => n

/-- The native builtins registered by `Interpreter::init` (lines 334-527).
    Trigonometric / exponential library results go through the abstract host
    model; `Math.asin` and `Math.acos` call `std::atan` exactly as the source
    does.  `Math.atan2` with exactly one argument indexes `args[1]` out of
    range — undefined behavior.  `assert` evaluates its first argument's
    string form against the *global* context captured at init time and throws
    on failure or when called with no arguments. -/
def runBuiltin (H : HostModel) : ℕ → Context → BuiltinName → List Value → Stdin → Outcome Value
  | 0, _, _, _, _ => .nofuel
  | _ + 1, _, .consoleLog, args, s => .ok Value.mkNull s (consoleLogOut args)
  | _ + 1, _, .mathSqrt, args, s =>
      .ok (match args with
           | [] => Value.mkNum Dbl.nan
           | a :: _ => Value.mkNum (H.libm1 ("sqrt") a.toNumber)) s []
  | _ + 1, _, .mathSin, args, s =>
      .ok (match args with
           | [] => Value.mkNum Dbl.nan
           | a :: _ => Value.mkNum (H.libm1 ("sin") a.toNumber)) s []
  | _ + 1, _, .mathCos, args, s =>
      .ok (match args with
           | [] => Value.mkNum Dbl.nan
           | a :: _ => Value.mkNum (H.libm1 ("cos") a.toNumber)) s []
  | _ + 1, _, .mathTan, args, s =>
      .ok (match args with
           | [] => Value.mkNum Dbl.nan
           | a :: _ => Value.mkNum (H.libm1 ("tan") a.toNumber)) s []
  | _ + 1, _, .mathPow, args, s =>
      .ok (match args with
           | a :: b2 :: _ => Value.mkNum (H.libm2 ("pow") a.toNumber b2.toNumber)
           | _ => Value.mkNum Dbl.nan) s []
  | _ + 1, _, .mathRandom, _, s => .ok (Value.mkNum H.rand) s []
  | _ + 1, _, .mathAbs, args, s =>
      .ok (match args with
           | [] => Value.mkNum Dbl.nan
           | a :: _ => Value.mkNum (H.libm1 ("fabs") a.toNumber)) s []
  | _ + 1, _, .mathFloor, args, s =>
      .ok (match args with
           | [] => Value.mkNum (.num 0)
           | a :: _ => Value.mkNum (H.libm1 ("floor") a.toNumber)) s []
  | _ + 1, _, .mathRound, args, s =>
      .ok (match args with
           | [] => Value.mkNum (.num 0)
           | a :: _ => Value.mkNum (H.libm1 ("round") a.toNumber)) s []
  | _ + 1, _, .mathCeil, args, s =>
      .ok (match args with
           | [] => Value.mkNum (.num 0)
           | a :: _ => Value.mkNum (H.libm1 ("ceil") a.toNumber)) s []
  | _ + 1, _, .mathTrunc, args, s =>
      .ok (match args with
           | [] => Value.mkNum (.num 0)
           | a :: _ => Value.mkNum (H.libm1 ("trunc") a.toNumber)) s []
  | _ + 1, _, .mathExp, args, s =>
      .ok (match args with
           | [] => Value.mkNum (.num 0)
           | a :: _ => Value.mkNum (H.libm1 ("exp") a.toNumber)) s []
  | _ + 1, _, .mathLog, args, s =>
      .ok (match args with
           | [] => Value.mkNum (.num 0)
           | a :: _ => Value.mkNum (H.libm1 ("log") a.toNumber)) s []
  | _ + 1, _, .mathAtan, args, s =>
      .ok (match args with
           | [] => Value.mkNum (.num 0)
           | a :: _ => Value.mkNum (H.libm1 ("atan") a.toNumber)) s []
  | _ + 1, _, .mathAsin, args, s =>
      .ok (match args with
           | [] => Value.mkNum (.num 0)
           | a :: _ => Value.mkNum (H.libm1 ("atan") a.toNumber)) s []
  | _ + 1, _, .mathAcos, args, s =>
      .ok (match args with
           | [] => Value.mkNum (.num 0)
           | a :: _ => Value.mkNum (H.libm1 ("atan") a.toNumber)) s []
  | _ + 1, _, .mathAtan2, args, s =>
      match args with
      | [] => .ok (Value.mkNum (.num 0)) s []
      | [_] => .ub
      | a :: b2 :: _ => .ok (Value.mkNum (H.libm2 ("atan2") a.toNumber b2.toNumber)) s []
  | _ + 1, _, .mathMax, args, s =>
      .ok (match args with
           | [] => Value.mkNum (Dbl.inf true)
           | a :: rest => Value.mkNum (rest.foldl (fun m x => dmax m x.toNumber) a.toNumber)) s []
  | _ + 1, _, .mathMin, args, s =>
      .ok (match args with
           | [] => Value.mkNum (Dbl.inf true)
           | a :: rest => Value.mkNum (rest.foldl (fun m x => dmin m x.toNumber) a.toNumber)) s []
  | _ + 1, _, .sizeofB, args, s =>
      .ok (match args with
           | [] => Value.mkNum (.num 0)
           | a :: _ => Value.mkNum (.num a.sizeModel)) s []
  | n + 1, g, .assertB, args, s =>
      match args with
      | [] => .exn (str "assert() called with no arguments") s []
      | a :: rest =>
          match evalSimpleExpression H n g a.toString g.vars (builtinCallables g.builtins) g s with
          | .ok v s2 o2 =>
              if v.toBool then .ok (Value.mkBool true) s2 o2
              else
                .exn (str "Assertion failed" ++
                      (match rest with | b2 :: _ => str ": " ++ b2.toString | [] => [])) s2 o2
          | .exn m s2 o2 => .exn m s2 o2
          | .ub => .ub
          | .hang => .hang
          | .nofuel => .nofuel

termination_by structural n => n

/-- The `let` handler (lines 536-621): split at `=`, strip an optional type
    annotation and a trailing semicolon, evaluate with the merged callable
    table inside a try/catch (a caught `std::exception` is printed and the
    statement aborted), and store the value. -/
def letStmt (H : HostModel) : ℕ → Context → Str → Context → Stdin → Outcome Context
  | 0, _, _, _, _ => .nofuel
  | n + 1, g, line, ctx, s =>
      let line2 := substrFrom line 4
      match findCharFrom line2 '=' 0 with
      | none => .ok ctx s (printLineO (str "SyntaxError: Missing '=' in let statement"))
      | some eqPos =>
          let varName0 := trim (line2.take eqPos)
          if varName0.isEmpty then
            .ok ctx s (printLineO (str "SyntaxError: Missing variable name"))
          else
            let varName :=
              match findCharFrom varName0 ':' 0 with
              | some cp => trim (varName0.take cp)
              | none => varName0
            let expr := stripSemi (trim (substrFrom line2 (eqPos + 1)))
            match evalSimpleExpression H n g expr ctx.vars (mkCallables ctx) ctx s with
            | .ok v s2 o2 => .ok { ctx with vars := setA ctx.vars varName v } s2 o2
            | .exn m s2 o2 =>
                .ok ctx s2 (o2 ++ printLineO (str "Error evaluating expression: " ++ m))
            | .ub => .ub
            | .hang => .hang
            | .nofuel => .nofuel

termination_by structural n => n

/-- The `if` handler (lines 697-821): evaluate the parenthesized condition
    (no try/catch — exceptions propagate), consume the true-branch block from
    the console stream, and on a false condition peek one line — consuming it
    unconditionally — executing an `else` block if that line starts with
    `else`. -/
def ifStmt (H : HostModel) : ℕ → Context → Str → Context → Stdin → Outcome Context
  | 0, _, _, _, _ => .nofuel
  | n + 1, g, line, ctx, s =>
      let callables := mkCallables ctx
      match findCharFrom line '(' 0 with
      | none => .ok ctx s (printLineO (str "SyntaxError: malformed if statement"))
      | some condStart =>
          match findCharFrom line ')' condStart with
          | none => .ok ctx s (printLineO (str "SyntaxError: malformed if statement"))
          | some condEnd =>
              let condExpr := trim (substr line (condStart + 1) (condEnd - condStart - 1))
              match evalSimpleExpression H n g condExpr ctx.vars callables ctx s with
              | .exn m s2 o2 => .exn m s2 o2
              | .ub => .ub
              | .hang => .hang
              | .nofuel => .nofuel
              | .ok condVal s2 o2 =>
                  match findCharFrom line '{' condEnd with
                  | none => .ok ctx s2 (o2 ++ printLineO (str "SyntaxError: if without block"))
                  | some _ =>
                      let cap := captureIfBlock 1 s2 []
                      if condVal.toBool then
                        withOut o2 (executeLines H n g cap.1 ctx cap.2)
                      else
                        match cap.2 with
                        | [] => .ok ctx [] o2
                        | elseLine0 :: rest2 =>
                            if strStartsWith (trim elseLine0) (str "else") then
                              let ecap := captureElseBlock 0 rest2 []
                              withOut o2 (executeLines H n g ecap.1 ctx ecap.2)
                            else .ok ctx rest2 o2

termination_by structural n => n

/-- The `class` handler (lines 823-990): extract the name, capture the body
    by brace depth, then process `static` members. -/
def classStmt (H : HostModel) : ℕ → Context → Str → Context → Stdin → Outcome Context
  | 0, _, _, _, _ => .nofuel
  | n + 1, g, line, ctx, s =>
      let className :=
        trim (match findCharFrom line '{' 6 with
              | some ne => substr line 6 (ne - 6)
              | none => substrFrom line 6)
      let cap :=
        if (findCharFrom line '{' 0).isSome then captureClassBody 1 s [] else ([], s)
      classBodyLoop H n g line className cap.1 ctx cap.2

termination_by structural n => n

/-- Processing of the captured class body (lines 852-988).  A `static` line
    with a `(` is a static method: its name comes from the member line, but
    the C++ then re-parses `header = line` — the *class declaration line* —
    for parameters and an inline body; with no `(` in that line, `size_t`
    wrap-around makes the whole class line the parameter list and no body is
    captured.  A `static` line with `=` is a static property: its expression
    is evaluated (no try/catch) and stored under `Class.prop`. -/
def classBodyLoop (H : HostModel) : ℕ → Context → Str → Str → List Str → Context →
    Stdin → Outcome Context
  | 0, _, _, _, _, _, _ => .nofuel
  | _ + 1, _, _, _, [], ctx, s => .ok ctx s []
  | n + 1, g, classLine, className, bl :: rest, ctx, s =>
      if strStartsWith bl (str "static ") then
        let restS := trim (substrFrom bl 7)
        match findCharFrom restS '(' 0 with
        | some mi =>
            let funcName := className ++ str "." ++ trim (restS.take mi)
            let nameStart :=
              match findCharFrom classLine ' ' 0 with | some i => i + 1 | none => 0
            let poOpt := findCharFrom classLine '(' nameStart
            let paramsStr :=
              match poOpt with
              | some po =>
                  (match findCharFrom classLine ')' po with
                   | some pc => substr classLine (po + 1) (pc - po - 1)
                   | none => substrFrom classLine (po + 1))
              | none => classLine
            let pp := parseParams paramsStr
            let searchFrom :=
              match poOpt with
              | some po =>
                  (match findCharFrom classLine ')' po with
                   | some pc => pc
                   | none => classLine.length)
              | none => classLine.length
            let capB :=
              match findCharFrom classLine '{' searchFrom with
              | some bo =>
                  let afterBrace := trim (substrFrom classLine (bo + 1))
                  captureFnBody 1 s (if afterBrace.isEmpty then [] else [afterBrace])
              | none => ([], s)
            classBodyLoop H n g classLine className rest
              { ctx with userFunctions := setA ctx.userFunctions funcName ⟨pp.1, pp.2, capB.1⟩ }
              capB.2
        | none =>
            match findCharFrom restS '=' 0 with
            | some eqPos =>
                let propName := className ++ str "." ++ trim (restS.take eqPos)
                let expr := stripSemi (trim (substrFrom restS (eqPos + 1)))
                match evalSimpleExpression H n g expr ctx.vars (mkCallables ctx) ctx s with
                | .ok v s2 o2 =>
                    withOut o2 (classBodyLoop H n g classLine className rest
                      { ctx with vars := setA ctx.vars propName v } s2)
                | .exn m s2 o2 => .exn m s2 o2
                | .ub => .ub
                | .hang => .hang
                | .nofuel => .nofuel
            | none => classBodyLoop H n g classLine className rest ctx s
      else classBodyLoop H n g classLine className rest ctx s

termination_by structural n => n

/-- The bare-call handler (lines 992-1179), entered with the positions of
    the first `(` and the last `)`.  A builtin is invoked directly — with no
    try/catch, so an exception it throws escapes the statement executor — and
    its result discarded.  A user function is arity- and type-checked (errors
    printed, call aborted), then its body runs against a full copy of the
    context with parameters bound; the caller's context is returned
    unchanged.  An unknown name reports an error. -/
def callStmt (H : HostModel) : ℕ → Context → Str → ℕ → ℕ → Context → Stdin → Outcome Context
  | 0, _, _, _, _, _, _ => .nofuel
  | n + 1, g, line, po, pc, ctx, s =>
      let funcName := trim (line.take po)
      let argsStr := substr line (po + 1) (pc - po - 1)
      let args := parseArgs ctx.vars argsStr
      match lookupA ctx.builtins funcName with
      | some bn =>
          match runBuiltin H n g bn args s with
          | .ok _ s2 o2 => .ok ctx s2 o2
          | .exn m s2 o2 => .exn m s2 o2
          | .ub => .ub
          | .hang => .hang
          | .nofuel => .nofuel
      | none =>
          match lookupA ctx.userFunctions funcName with
          | some fd =>
              if args.length != fd.params.length then
                .ok ctx s (printLineO (str "Error: Function '" ++ funcName ++
                  str "' expects " ++ natToStr fd.params.length ++
                  str " arguments, got " ++ natToStr args.length))
              else
                match typeCheckFirstErr fd.params fd.paramTypes args with
                | some msg => .ok ctx s (printLineO msg)
                | none =>
                    match executeLines H n g fd.bodyLines
                        { ctx with vars := bindParams ctx.vars fd.params args } s with
                    | .ok _ s2 o2 => .ok ctx s2 o2
                    | .exn m s2 o2 => .exn m s2 o2
                    | .ub => .ub
                    | .hang => .hang
                    | .nofuel => .nofuel
          | none =>
              .ok ctx s (printLineO (str "Error: Unknown function '" ++ funcName ++ str "'"))

termination_by structural n => n

/-- `executeLine` (lines 529-1182): trim, skip blanks and comments, then
    dispatch on the line prefix; lines that are no recognized statement and
    contain no call-shaped parentheses report an error. -/
def executeLine (H : HostModel) : ℕ → Context → Str → Context → Stdin → Outcome Context
  | 0, _, _, _, _ => .nofuel
  | n + 1, g, rawLine, ctx, s =>
      let line := trim rawLine
      if line.isEmpty then .ok ctx s []
      else if charAt line 0 == '/' && charAt line 1 == '/' then .ok ctx s []
      else if strStartsWith line (str "let ") then letStmt H n g line ctx s
      else if strStartsWith line (str "function ") then
        let r := functionStmt line ctx.userFunctions s
        .ok { ctx with userFunctions := r.1 } r.2 []
      else if strStartsWith line (str "if ") then ifStmt H n g line ctx s
      else if strStartsWith line (str "class ") then classStmt H n g line ctx s
      else
        match findCharFrom line '(' 0, rfindChar line ')' with
        | some po, some pc =>
            if po < pc then callStmt H n g line po pc ctx s
            else .ok ctx s (printLineO (str "Error: Unrecognized statement: " ++ line))
        | _, _ => .ok ctx s (printLineO (str "Error: Unrecognized statement: " ++ line))

termination_by structural n => n

/-- Sequential execution of a list of lines against an evolving context
    (used for block bodies and call bodies). -/
def executeLines (H : HostModel) : ℕ → Context → List Str → Context → Stdin → Outcome Context
  | 0, _, _, _, _ => .nofuel
  | _ + 1, _, [], ctx, s => .ok ctx s []
  | n + 1, g, l :: rest, ctx, s =>
      match executeLine H n g l ctx s with
      | .ok c2 s2 o2 => withOut o2 (executeLines H n g rest c2 s2)
      | .exn m s2 o2 => .exn m s2 o2
      | .ub => .ub
      | .hang => .hang
      | .nofuel => .nofuel

termination_by structural n => n
end

/-- `executeScript` (lines 1184-1190): execute each line of the vector in
    order against the same context.  The context passed along as the global
    (`assert`-captured) context is the current one at each top-level line. -/
def executeScript (H : HostModel) (fuel : ℕ) : List Str → Context → Stdin → Outcome Context
  | [], ctx, s => .ok ctx s []
  | l :: rest, ctx, s =>
      match executeLine H fuel ctx l ctx s with
      | .ok c2 s2 o2 => withOut o2 (executeScript H fuel rest c2 s2)
      | .exn m s2 o2 => .exn m s2 o2
      | .ub => .ub
      | .hang => .hang
      | .nofuel => .nofuel

/-- `Interpreter::init` (lines 334-527): the builtin registry and the
    initial variables (in registration order). -/
def initCtx (H : HostModel) : Context :=
  { vars :=
      [(str "NaN", Value.mkNum Dbl.nan),
       (str "undefined", Value.mkNull),
       (str "Math.PI", Value.mkNum (.num H.piVal)),
       (str "Math.E", Value.mkNum (.num H.eVal))]
    builtins :=
      [(str "console.log", .consoleLog),
       (str "Math.sqrt", .mathSqrt),
       (str "Math.sin", .mathSin),
       (str "Math.cos", .mathCos),
       (str "Math.tan", .mathTan),
       (str "Math.pow", .mathPow),
       (str "Math.random", .mathRandom),
       (str "Math.abs", .mathAbs),
       (str "Math.floor", .mathFloor),
       (str "Math.round", .mathRound),
       (str "Math.ceil", .mathCeil),
       (str "Math.trunc", .mathTrunc),
       (str "Math.exp", .mathExp),
       (str "Math.log", .mathLog),
       (str "Math.atan", .mathAtan),
       (str "Math.asin", .mathAsin),
       (str "Math.acos", .mathAcos),
       (str "Math.atan2", .mathAtan2),
       (str "Math.max", .mathMax),
       (str "Math.min", .mathMin),
       (str "sizeof", .sizeofB),
       (str "assert", .assertB)]
    userFunctions := [] }

/-! ### The 16-bit float codec (src/project/source/half.cpp)

Both conversion routines are pure bit manipulation on patterns; they are
embedded on ℕ with shifts written as division/multiplication by powers of
two and masks as remainders.  Bit-ors in the source always combine disjoint
fields, so they are written as sums. -/

/-- `half::float_to_half` (half.cpp lines 6-32) on the 32-bit pattern of the
    input float.  `exponent` is a signed 32-bit value there, modelled as ℤ. -/
def float_to_half (x : ℕ) : ℕ :=
  let sign := (x / 0x80000000 % 2) * 0x8000
  let e8 : ℕ := x / 0x800000 % 256
  let exponent : ℤ := (e8 : ℤ) - 127 + 15
  let mantissa := x % 0x800000
  if exponent ≤ 0 then
    if exponent < -10 then sign
    else
      let m2 := mantissa + 0x800000
      let m3 := m2 / 2 ^ (1 - exponent).toNat
      sign + m3 / 8192
  else if exponent ≥ 31 then
    if mantissa = 0 then sign + 0x7C00
    else sign + 0x7C00 + mantissa / 8192
  else
    sign + exponent.toNat * 1024 + mantissa / 8192

/-- The subnormal renormalization loop of `half_to_float`: shift the mantissa
    left until bit 10 is set, decrementing the exponent.  A nonzero 10-bit
    mantissa reaches bit 10 within 10 shifts, so fuel 11 makes the model
    total without changing any reachable behavior.  In the C++ the exponent
    is a `uint32_t` that can wrap below zero; the later `+= 112` wraps it
    back, so the signed model gives the same field value (see half_to_float). -/
def renormHalf : ℕ → ℕ → ℤ → ℕ × ℤ
  | 0, m, e => (m, e)
  | fuel + 1, m, e =>
      if m / 1024 % 2 = 0 then renormHalf fuel (m * 2) (e - 1) else (m, e)

/-- `half::half_to_float` (half.cpp lines 34-71), producing the 32-bit
    pattern of the result float. -/
def half_to_float (h : ℕ) : ℕ :=
  let sign := (h / 0x8000 % 2) * 0x80000000
  let e := h / 1024 % 32
  let m := h % 1024
  if e = 0 then
    if m = 0 then sign
    else
      let r := renormHalf 11 m 1
      let m3 := r.1 % 1024
      let e3 := r.2 + 112
      sign + e3.toNat * 0x800000 + m3 * 8192
  else if e = 31 then
    sign + 0x7F800000 + m * 8192
  else
    sign + (e + 112) * 0x800000 + m * 8192

/-- A 16-bit pattern with the NaN exponent field and a nonzero mantissa other
    than the canonical quiet-NaN mantissa (0x200). -/
def nonCanonicalNaN (h : ℕ) : Bool :=
  h / 1024 % 32 == 31 && h % 1024 != 0 && h % 1024 != 512

/-- The arithmetic-operator pattern of half.cpp (`operator+ - * / %` and
    `sqrt`, lines 80-131): decode the operands to 32-bit floats, apply the
    float operation, re-encode through the `half(float)` constructor.  The
    float operation itself is kept abstract, which is exactly what makes the
    pattern the canonical decode-operate-encode composition. -/
def halfBin (f32op : ℕ → ℕ → ℕ) (a b : ℕ) : ℕ :=
  float_to_half (f32op (half_to_float a) (half_to_float b))

/-- The unary version of the same pattern (`sqrt`). -/
def halfUn (f32op : ℕ → ℕ) (a : ℕ) : ℕ :=
  float_to_half (f32op (half_to_float a))

/-- Wrapped 32-bit arithmetic helper for the fixed-point approximations. -/
def u32 (n : ℕ) : ℕ := n % 2 ^ 32

/-- Wrapped 32-bit subtraction. -/
def u32sub (a b : ℕ) : ℕ := (u32 a + (2 ^ 32 - u32 b)) % 2 ^ 32

/-- The fixed-point `sin` overload for half (half.cpp lines 133-146): raw
    integer arithmetic on the bit pattern, no decode/encode.  All
    intermediates are uint32 (products wrap mod 2^32) and the final store
    into the 16-bit `bits` field truncates mod 2^16. -/
def sinHalf (h : ℕ) : ℕ :=
  let xfp := (h % 2 ^ 15) * 2 ^ 5
  let x2 := u32 (xfp * xfp) / 2 ^ 10
  let x3 := u32 (x2 * xfp) / 2 ^ 10
  let x5 := u32 (x3 * x2) / 2 ^ 10
  let approx := (u32sub xfp (x3 / 6) + x5 / 120) % 2 ^ 32
  approx / 2 ^ 5 % 2 ^ 16

/-- The fixed-point `cos` overload (lines 148-158). -/
def cosHalf (h : ℕ) : ℕ :=
  let xfp := (h % 2 ^ 15) * 2 ^ 5
  let x2 := u32 (xfp * xfp) / 2 ^ 10
  let x4 := u32 (x2 * x2) / 2 ^ 10
  let approx := (u32sub (2 ^ 15) (x2 / 2) + x4 / 24) % 2 ^ 32
  approx / 2 ^ 5 % 2 ^ 16

/-- The fixed-point `tan` overload (lines 160-171). -/
def tanHalf (h : ℕ) : ℕ :=
  let xfp := (h % 2 ^ 15) * 2 ^ 5
  let x2 := u32 (xfp * xfp) / 2 ^ 10
  let x3 := u32 (x2 * xfp) / 2 ^ 10
  let x5 := u32 (x3 * x2) / 2 ^ 10
  let approx := (xfp + x3 / 3 + 2 * x5 / 15) % 2 ^ 32
  approx / 2 ^ 5 % 2 ^ 16

/-- The fixed-point `exp` overload (half.cpp lines 173-186): again raw
    integer arithmetic on the bit pattern.  At h = 0 it yields
    `(1 << 15) >> 5 = 0x0400`, the subnormal pattern for 2^-15 — not the
    encoding of e^0 = 1. -/
def expHalf (h : ℕ) : ℕ :=
  let x := h % 2 ^ 15
  let xfp := x * 2 ^ 5
  let x2 := u32 (xfp * xfp) / 2 ^ 10
  let x3 := u32 (x2 * xfp) / 2 ^ 10
  let approx := (2 ^ 15 + xfp + x2 / 2 + x3 / 6) % 2 ^ 32
  approx / 2 ^ 5 % 2 ^ 16

/-- The fixed-point `log` overload (lines 188-202). -/
def logHalf (h : ℕ) : ℕ :=
  if h % 2 ^ 15 = 0 then 0
  else
    let xfp := (h % 2 ^ 15) * 2 ^ 5
    let xm1 := u32sub xfp (2 ^ 15)
    let x2 := u32 (xm1 * xm1) / 2 ^ 10
    let x3 := u32 (x2 * xm1) / 2 ^ 10
    let approx := (u32sub xm1 (x2 / 2) + x3 / 3) % 2 ^ 32
    approx / 2 ^ 5 % 2 ^ 16

/-- The `fmod` overload for half (half.cpp lines 243-253): an *integer*
    remainder of the raw bit patterns (`a.bits % b.bits`), not a
    decode-fmod-encode composition; a divisor with zero magnitude bits
    yields 0. -/
def fmodHalf (a b : ℕ) : ℕ :=
  if b % 2 ^ 15 = 0 then 0 else a % b

/-- The exact real value of a finite 32-bit float pattern; used to state
    what the canonical decode-operate-encode composition produces at
    exactly-representable points.  Exponent-255 patterns (inf/NaN) are given
    value 0 and are never used in any statement. -/
def f32val (x : ℕ) : ℚ :=
  let sgn : ℚ := if x / 0x80000000 % 2 = 1 then -1 else 1
  let e : ℕ := x / 0x800000 % 256
  let m : ℕ := x % 0x800000
  if e = 0 then sgn * (m : ℚ) * (2 : ℚ) ^ (-149 : ℤ)
  else if e = 255 then 0
  else sgn * ((2 : ℚ) ^ 23 + (m : ℚ)) * (2 : ℚ) ^ ((e : ℤ) - 150)

/-- The exact real value of a finite half pattern, via the decoder. -/
def f16val (h : ℕ) : ℚ := f32val (half_to_float h)

/-- Exact fmod on rationals: `x - y * trunc(x / y)`.  IEEE-754 fmod is exact
    (it never rounds), so on exactly-representable operands the float
    `std::fmod` returns exactly this value. -/
def ratFmod (a b : ℚ) : ℚ := a - b * (ratTrunc (a / b) : ℚ)

/-- A Value tag that any constructor can produce: not Undefined, not NaN. -/
def goodV (v : Value) : Prop :=
  v.type ≠ ValueType.Undefined ∧ v.type ≠ ValueType.NaN

/-- Every stored Value has a constructor-produced tag. -/
def goodEnv (env : List (Str × Value)) : Prop := ∀ p ∈ env, goodV p.2

/-- Every variable of the context has a constructor-produced tag. -/
def goodCtx (ctx : Context) : Prop := goodEnv ctx.vars

/-- Induction statement: the evaluator only returns constructor-built Values. -/
def PEval (n : ℕ) : Prop :=
  ∀ H g expr env callables cctx s v s2 o, goodCtx g → goodEnv env → goodCtx cctx →
    evalSimpleExpression H n g expr env callables cctx s = .ok v s2 o → goodV v

/-- Induction statement for the RPN loop, over a well-tagged operand stack. -/
def PRpn (n : ℕ) : Prop :=
  ∀ H g toks prev vals env callables cctx s v s2 o, goodCtx g → goodEnv env → goodCtx cctx →
    (∀ x ∈ vals, goodV x) →
    rpnLoop H n g toks prev vals env callables cctx s = .ok v s2 o → goodV v

/-- Induction statement for callable invocation. -/
def PCallable (n : ℕ) : Prop :=
  ∀ H g c cctx args s v s2 o, goodCtx g → goodCtx cctx → (∀ x ∈ args, goodV x) →
    runCallable H n g c cctx args s = .ok v s2 o → goodV v

/-- Induction statement for the wrapper body loop. -/
def PUser (n : ℕ) : Prop :=
  ∀ H g lines localCtx cctx s v s2 o, goodCtx g → goodCtx localCtx → goodCtx cctx →
    userBodyLoop H n g lines localCtx cctx s = .ok v s2 o → goodV v

/-- Induction statement for the let handler. -/
def PLet (n : ℕ) : Prop :=
  ∀ H g line ctx s c2 s2 o, goodCtx g → goodCtx ctx →
    letStmt H n g line ctx s = .ok c2 s2 o → goodCtx c2

/-- Induction statement for the if handler. -/
def PIf (n : ℕ) : Prop :=
  ∀ H g line ctx s c2 s2 o, goodCtx g → goodCtx ctx →
    ifStmt H n g line ctx s = .ok c2 s2 o → goodCtx c2

/-- Induction statement for the class handler. -/
def PCls (n : ℕ) : Prop :=
  ∀ H g line ctx s c2 s2 o, goodCtx g → goodCtx ctx →
    classStmt H n g line ctx s = .ok c2 s2 o → goodCtx c2

/-- Induction statement for the class body processor. -/
def PClsB (n : ℕ) : Prop :=
  ∀ H g classLine className bls ctx s c2 s2 o, goodCtx g → goodCtx ctx →
    classBodyLoop H n g classLine className bls ctx s = .ok c2 s2 o → goodCtx c2

/-- Induction statement for the bare-call handler. -/
def PCallS (n : ℕ) : Prop :=
  ∀ H g line po pc ctx s c2 s2 o, goodCtx g → goodCtx ctx →
    callStmt H n g line po pc ctx s = .ok c2 s2 o → goodCtx c2

/-- Induction statement for executeLine. -/
def PExe (n : ℕ) : Prop :=
  ∀ H g line ctx s c2 s2 o, goodCtx g → goodCtx ctx →
    executeLine H n g line ctx s = .ok c2 s2 o → goodCtx c2

/-- Induction statement for executeLines. -/
def PExs (n : ℕ) : Prop :=
  ∀ H g lines ctx s c2 s2 o, goodCtx g → goodCtx ctx →
    executeLines H n g lines ctx s = .ok c2 s2 o → goodCtx c2

/-- The empty interpreter context: no variables, no builtins, no user functions. -/
def ctx0 : Context := { vars := [], builtins := [], userFunctions := [] }

/-- A concrete context for exercising user-function calls: one variable
    `x = 5`, no builtins, and a user function `f` whose body line fails,
    so the call's body leaves the caller visible only through output. -/
def ctxw : Context :=
  { vars := [(str "x", Value.mkNum (.num 5))]
    builtins := []
    userFunctions := [(str "f", { params := [], paramTypes := [], bodyLines := [str "let x = ;"] })] }

theorem goodV_mkNull : goodV Value.mkNull := by simp [goodV, Value.mkNull]

theorem goodV_mkNum (x : Dbl) : goodV (Value.mkNum x) := by simp [goodV, Value.mkNum]

theorem goodV_mkStr (t : Str) : goodV (Value.mkStr t) := by simp [goodV, Value.mkStr]

theorem goodV_mkBool (bv : Bool) : goodV (Value.mkBool bv) := by simp [goodV, Value.mkBool]

theorem goodV_ite (c : Prop) [Decidable c] (x y : Value) (hx : goodV x) (hy : goodV y) :
    goodV (if c then x else y) := by
  by_cases h : c
  · simpa [h] using hx
  · simpa [h] using hy

theorem applyOpVal_good (H : HostModel) (op : Str) (a b : Value) :
    goodV (applyOpVal H op a b) := by
  unfold applyOpVal
  repeat
    first
    | exact goodV_mkStr _
    | exact goodV_mkNum _
    | exact goodV_mkBool _
    | exact goodV_mkNull
    | apply goodV_ite

theorem lookupA_good {env : List (Str × Value)} {k : Str} {v : Value}
    (hg : goodEnv env) (hl : lookupA env k = some v) : goodV v := by
  induction env with
  | nil => simp [lookupA] at hl
  | cons p rest ih =>
      simp only [lookupA] at hl
      by_cases hk : (p.1 == k) = true
      · rw [if_pos hk] at hl
        cases hl
        exact hg p (by simp)
      · rw [if_neg hk] at hl
        exact ih (fun q hq => hg q (by simp [hq])) hl

theorem setA_good {env : List (Str × Value)} {k : Str} {v : Value}
    (hg : goodEnv env) (hv : goodV v) : goodEnv (setA env k v) := by
  induction env with
  | nil =>
      intro p hp
      simp [setA] at hp
      simp [hp, hv]
  | cons q rest ih =>
      intro p hp
      simp only [setA] at hp
      by_cases hk : (q.1 == k) = true
      · rw [if_pos hk] at hp
        rcases List.mem_cons.mp hp with h | h
        · simp [h, hv]
        · exact hg p (List.mem_cons.mpr (Or.inr h))
      · rw [if_neg hk] at hp
        rcases List.mem_cons.mp hp with h | h
        · exact hg p (by simp [h])
        · exact ih (fun r hr => hg r (List.mem_cons.mpr (Or.inr hr))) p h

theorem bindParams_good : ∀ (ps : List Str) (args : List Value) (vars : List (Str × Value)),
    goodEnv vars → (∀ a ∈ args, goodV a) → goodEnv (bindParams vars ps args) := by
  intro ps
  induction ps with
  | nil =>
      intro args vars hg _
      cases args <;> simpa [bindParams] using hg
  | cons p ps ih =>
      intro args vars hg ha
      cases args with
      | nil => simpa [bindParams] using hg
      | cons a rest =>
          simp only [bindParams]
          exact ih rest _ (setA_good hg (ha a (by simp)))
            (fun x hx => ha x (by simp [hx]))

theorem resolveArg_good {vars : List (Str × Value)} (hg : goodEnv vars) (argT : Str) :
    goodV (resolveArg vars argT) := by
  unfold resolveArg
  refine goodV_ite _ _ _ (goodV_mkBool _) ?_
  refine goodV_ite _ _ _ (goodV_mkBool _) ?_
  refine goodV_ite _ _ _ goodV_mkNull ?_
  cases hp : strtodParse argT with
  | some d => exact goodV_mkNum d
  | none =>
      refine goodV_ite _ _ _ (goodV_mkStr _) ?_
      cases hl : lookupA vars argT with
      | some v => exact lookupA_good hg hl
      | none => exact goodV_mkNull

theorem argSplitStep_good {vars : List (Str × Value)} (hg : goodEnv vars)
    (st : ArgSplitSt) (c : Char) (h : ∀ v ∈ st.args, goodV v) :
    ∀ v ∈ (argSplitStep vars st c).args, goodV v := by
  unfold argSplitStep
  split_ifs with h1 h2 h3 h4 h5
  · exact h
  · exact h
  · exact h
  · exact h
  · intro v hv
    by_cases he : (trim st.cur).isEmpty = true
    · simp only [he, if_true] at hv
      exact h v hv
    · simp only [he, if_false, Bool.false_eq_true] at hv
      rcases List.mem_append.mp hv with hm | hm
      · exact h v hm
      · rcases List.mem_singleton.mp hm with rfl
        exact resolveArg_good hg _
  · exact h

theorem foldArgs_good {vars : List (Str × Value)} (hg : goodEnv vars) :
    ∀ (cs : Str) (st : ArgSplitSt), (∀ v ∈ st.args, goodV v) →
      ∀ v ∈ (cs.foldl (argSplitStep vars) st).args, goodV v := by
  intro cs
  induction cs with
  | nil => intro st h; simpa using h
  | cons c rest ih =>
      intro st h
      simp only [List.foldl_cons]
      exact ih _ (argSplitStep_good hg st c h)

theorem parseArgs_good {vars : List (Str × Value)} (hg : goodEnv vars) (argsStr : Str) :
    ∀ v ∈ parseArgs vars argsStr, goodV v := by
  unfold parseArgs
  have hf := foldArgs_good hg argsStr ⟨[], [], false, Char.ofNat 0, 0⟩ (by simp)
  by_cases hc : (argsStr.foldl (argSplitStep vars) ⟨[], [], false, Char.ofNat 0, 0⟩).cur.isEmpty
      = true
  · simpa [hc] using hf
  · simp only [hc, if_false, Bool.false_eq_true]
    by_cases he : (trim (argsStr.foldl (argSplitStep vars)
        ⟨[], [], false, Char.ofNat 0, 0⟩).cur).isEmpty = true
    · simpa [he] using hf
    · simp only [he, if_false, Bool.false_eq_true]
      intro v hv
      rcases List.mem_append.mp hv with hm | hm
      · exact hf v hm
      · rcases List.mem_singleton.mp hm with rfl
        exact resolveArg_good hg _

theorem runBuiltin_good {H : HostModel} {n : ℕ} {g : Context} {bn : BuiltinName}
    {args : List Value} {s : Stdin} {v : Value} {s2 : Stdin} {o : Output}
    (h : runBuiltin H n g bn args s = .ok v s2 o) : goodV v := by
  cases n with
  | zero => simp [runBuiltin] at h
  | succ n =>
      cases bn with
      | consoleLog => cases h; exact goodV_mkNull
      | mathSqrt => cases args <;> (cases h; exact goodV_mkNum _)
      | mathSin => cases args <;> (cases h; exact goodV_mkNum _)
      | mathCos => cases args <;> (cases h; exact goodV_mkNum _)
      | mathTan => cases args <;> (cases h; exact goodV_mkNum _)
      | mathPow =>
          cases args with
          | nil => cases h; exact goodV_mkNum _
          | cons a rest => cases rest <;> (cases h; exact goodV_mkNum _)
      | mathRandom => cases h; exact goodV_mkNum _
      | mathAbs => cases args <;> (cases h; exact goodV_mkNum _)
      | mathFloor => cases args <;> (cases h; exact goodV_mkNum _)
      | mathRound => cases args <;> (cases h; exact goodV_mkNum _)
      | mathCeil => cases args <;> (cases h; exact goodV_mkNum _)
      | mathTrunc => cases args <;> (cases h; exact goodV_mkNum _)
      | mathExp => cases args <;> (cases h; exact goodV_mkNum _)
      | mathLog => cases args <;> (cases h; exact goodV_mkNum _)
      | mathAtan => cases args <;> (cases h; exact goodV_mkNum _)
      | mathAsin => cases args <;> (cases h; exact goodV_mkNum _)
      | mathAcos => cases args <;> (cases h; exact goodV_mkNum _)
      | mathAtan2 =>
          cases args with
          | nil => cases h; exact goodV_mkNum _
          | cons a rest =>
              cases rest with
              | nil => simp [runBuiltin] at h
              | cons b2 rest2 => cases h; exact goodV_mkNum _
      | mathMax => cases args <;> (cases h; exact goodV_mkNum _)
      | mathMin => cases args <;> (cases h; exact goodV_mkNum _)
      | sizeofB => cases args <;> (cases h; exact goodV_mkNum _)
      | assertB =>
          cases args with
          | nil => simp [runBuiltin] at h
          | cons a rest =>
              simp only [runBuiltin] at h
              cases hEval : evalSimpleExpression H n g a.toString g.vars
                  (builtinCallables g.builtins) g s with
              | ok v2 s3 o3 =>
                  rw [hEval] at h
                  by_cases hb : v2.toBool = true
                  · simp only [hb, if_true] at h
                    cases h
                    exact goodV_mkBool _
                  · simp only [hb, if_false, Bool.false_eq_true] at h
                    cases h
              | exn m s3 o3 => rw [hEval] at h; cases h
              | ub => rw [hEval] at h; cases h
              | hang => rw [hEval] at h; cases h
              | nofuel => rw [hEval] at h; cases h

/-- Tag goodness is preserved through the whole interpreter: simultaneous
    induction on fuel over all mutually recursive executors. -/
theorem goodness : ∀ n, PEval n ∧ PRpn n ∧ PCallable n ∧ PUser n ∧ PLet n ∧ PIf n ∧
    PCls n ∧ PClsB n ∧ PCallS n ∧ PExe n ∧ PExs n := by
  intro n
  induction n with
  | zero =>
      refine ⟨?_, ?_, ?_, ?_, ?_, ?_, ?_, ?_, ?_, ?_, ?_⟩
      · intro H g expr env callables cctx s v s2 o _ _ _ h
        simp [evalSimpleExpression] at h
      · intro H g toks prev vals env callables cctx s v s2 o _ _ _ _ h
        simp [rpnLoop] at h
      · intro H g c cctx args s v s2 o _ _ _ h
        simp [runCallable] at h
      · intro H g lines localCtx cctx s v s2 o _ _ _ h
        simp [userBodyLoop] at h
      · intro H g line ctx s c2 s2 o _ _ h
        simp [letStmt] at h
      · intro H g line ctx s c2 s2 o _ _ h
        simp [ifStmt] at h
      · intro H g line ctx s c2 s2 o _ _ h
        simp [classStmt] at h
      · intro H g classLine className bls ctx s c2 s2 o _ _ h
        simp [classBodyLoop] at h
      · intro H g line po pc ctx s c2 s2 o _ _ h
        simp [callStmt] at h
      · intro H g line ctx s c2 s2 o _ _ h
        simp [executeLine] at h
      · intro H g lines ctx s c2 s2 o _ _ h
        simp [executeLines] at h
  | succ n ih =>
      obtain ⟨ihE, ihR, ihC, ihU, ihL, ihI, ihCs, ihCb, ihCa, ihX, ihXs⟩ := ih
      refine ⟨?_, ?_, ?_, ?_, ?_, ?_, ?_, ?_, ?_, ?_, ?_⟩
      -- PEval
      · intro H g expr env callables cctx s v s2 o hg he hc h
        simp only [evalSimpleExpression] at h
        cases htok : tokenize expr with
        | none => simp [htok] at h
        | some toks =>
            simp only [htok] at h
            exact ihR H g _ none [] env callables cctx s v s2 o hg he hc (by simp) h
      -- PRpn
      · intro H g toks prev vals env callables cctx s v s2 o hg he hc hv h
        cases toks with
        | nil =>
            simp only [rpnLoop] at h
            cases h
            cases vals with
            | nil => exact goodV_mkNull
            | cons x xs => exact hv x (by simp)
        | cons tok rest =>
            simp only [rpnLoop, isOperator, if_true] at h
            cases vals with
            | nil => cases h
            | cons b2 vt =>
                cases vt with
                | nil => cases h
                | cons a2 rst =>
                    refine ihR H g rest (some tok) _ env callables cctx s v s2 o hg he hc ?_ h
                    intro x hx
                    rcases List.mem_cons.mp hx with rfl | hx2
                    · exact applyOpVal_good H tok a2 b2
                    · exact hv x (by simp [hx2])
      -- PCallable
      · intro H g c cctx args s v s2 o hg hc ha h
        cases c with
        | builtin bn =>
            simp only [runCallable] at h
            exact runBuiltin_good h
        | user name =>
            simp only [runCallable] at h
            cases hlk : lookupA cctx.userFunctions name with
            | none => simp only [hlk] at h; cases h
            | some fd =>
                simp only [hlk] at h
                by_cases hlen : (args.length != fd.params.length) = true
                · rw [if_pos hlen] at h
                  cases h
                  exact goodV_mkNull
                · rw [if_neg hlen] at h
                  refine ihU H g fd.bodyLines _ cctx s v s2 o hg ?_ hc h
                  exact bindParams_good fd.params args cctx.vars hc ha
      -- PUser
      · intro H g lines localCtx cctx s v s2 o hg hl hc h
        cases lines with
        | nil =>
            simp only [userBodyLoop] at h
            cases h
            exact goodV_mkNull
        | cons bodyLine rest =>
            simp only [userBodyLoop] at h
            by_cases hret : strStartsWith (trim bodyLine) (str "return") = true
            · rw [if_pos hret] at h
              exact ihE H g _ localCtx.vars _ cctx s v s2 o hg hl hc h
            · rw [if_neg hret] at h
              cases hex : executeLine H n g bodyLine localCtx s with
              | ok cB sB oB =>
                  simp only [hex] at h
                  cases hub : userBodyLoop H n g rest cB cctx sB with
                  | ok vB sC oC =>
                      simp only [hub] at h
                      simp only [withOut] at h
                      cases h
                      exact ihU H g rest cB cctx sB _ _ _ hg
                        (ihX H g bodyLine localCtx s cB sB oB hg hl hex) hc hub
                  | exn m sC oC => simp only [hub] at h; simp only [withOut] at h; cases h
                  | ub => simp only [hub] at h; simp only [withOut] at h; cases h
                  | hang => simp only [hub] at h; simp only [withOut] at h; cases h
                  | nofuel => simp only [hub] at h; simp only [withOut] at h; cases h
              | exn m sB oB => simp only [hex] at h; cases h
              | ub => simp only [hex] at h; cases h
              | hang => simp only [hex] at h; cases h
              | nofuel => simp only [hex] at h; cases h
      -- PLet
      · intro H g line ctx s c2 s2 o hg hc h
        simp only [letStmt] at h
        cases hfe : findCharFrom (substrFrom line 4) '=' 0 with
        | none =>
            simp only [hfe] at h
            cases h
            exact hc
        | some eqPos =>
            simp only [hfe] at h
            by_cases hv0 : (trim ((substrFrom line 4).take eqPos)).isEmpty = true
            · rw [if_pos hv0] at h
              cases h
              exact hc
            · rw [if_neg hv0] at h
              cases hev : evalSimpleExpression H n g
                  (stripSemi (trim (substrFrom (substrFrom line 4) (eqPos + 1))))
                  ctx.vars (mkCallables ctx) ctx s with
              | ok v2 sB oB =>
                  simp only [hev] at h
                  cases h
                  exact setA_good hc
                    (ihE H g _ ctx.vars _ ctx s v2 _ _ hg hc hc hev)
              | exn m sB oB => simp only [hev] at h; cases h; exact hc
              | ub => simp only [hev] at h; cases h
              | hang => simp only [hev] at h; cases h
              | nofuel => simp only [hev] at h; cases h
      -- PIf
      · intro H g line ctx s c2 s2 o hg hc h
        simp only [ifStmt] at h
        cases hf1 : findCharFrom line '(' 0 with
        | none => simp only [hf1] at h; cases h; exact hc
        | some condStart =>
            simp only [hf1] at h
            cases hf2 : findCharFrom line ')' condStart with
            | none => simp only [hf2] at h; cases h; exact hc
            | some condEnd =>
                simp only [hf2] at h
                cases hev : evalSimpleExpression H n g
                    (trim (substr line (condStart + 1) (condEnd - condStart - 1)))
                    ctx.vars (mkCallables ctx) ctx s with
                | exn m sB oB => simp only [hev] at h; cases h
                | ub => simp only [hev] at h; cases h
                | hang => simp only [hev] at h; cases h
                | nofuel => simp only [hev] at h; cases h
                | ok condVal sB oB =>
                    simp only [hev] at h
                    cases hf3 : findCharFrom line '{' condEnd with
                    | none => simp only [hf3] at h; cases h; exact hc
                    | some bracePos =>
                        simp only [hf3] at h
                        by_cases hcond : condVal.toBool = true
                        · rw [if_pos hcond] at h
                          cases hx2 : executeLines H n g (captureIfBlock 1 sB []).1 ctx
                              (captureIfBlock 1 sB []).2 with
                          | ok cB sC oC =>
                              simp only [hx2] at h
                              simp only [withOut] at h
                              cases h
                              exact ihXs H g _ ctx _ _ _ _ hg hc hx2
                          | exn m sC oC => simp only [hx2] at h; simp only [withOut] at h; cases h
                          | ub => simp only [hx2] at h; simp only [withOut] at h; cases h
                          | hang => simp only [hx2] at h; simp only [withOut] at h; cases h
                          | nofuel => simp only [hx2] at h; simp only [withOut] at h; cases h
                        · rw [if_neg hcond] at h
                          cases hcap : (captureIfBlock 1 sB []).2 with
                          | nil => simp only [hcap] at h; cases h; exact hc
                          | cons elseLine0 rest2 =>
                              simp only [hcap] at h
                              by_cases helse : strStartsWith (trim elseLine0) (str "else")
                                  = true
                              · rw [if_pos helse] at h
                                cases hx3 : executeLines H n g
                                    (captureElseBlock 0 rest2 []).1 ctx
                                    (captureElseBlock 0 rest2 []).2 with
                                | ok cB sC oC =>
                                    simp only [hx3] at h
                                    simp only [withOut] at h
                                    cases h
                                    exact ihXs H g _ ctx _ _ _ _ hg hc hx3
                                | exn m sC oC =>
                                    simp only [hx3] at h; simp only [withOut] at h; cases h
                                | ub => simp only [hx3] at h; simp only [withOut] at h; cases h
                                | hang => simp only [hx3] at h; simp only [withOut] at h; cases h
                                | nofuel => simp only [hx3] at h; simp only [withOut] at h; cases h
                              · rw [if_neg helse] at h
                                cases h
                                exact hc
      -- PCls
      · intro H g line ctx s c2 s2 o hg hc h
        simp only [classStmt] at h
        exact ihCb H g line _ _ ctx _ c2 s2 o hg hc h
      -- PClsB
      · intro H g classLine className bls ctx s c2 s2 o hg hc h
        cases bls with
        | nil =>
            simp only [classBodyLoop] at h
            cases h
            exact hc
        | cons bl rest =>
            simp only [classBodyLoop] at h
            by_cases hst : strStartsWith bl (str "static ") = true
            · rw [if_pos hst] at h
              cases hmi : findCharFrom (trim (substrFrom bl 7)) '(' 0 with
              | some mi =>
                  simp only [hmi] at h
                  refine ihCb H g classLine className rest _ _ c2 s2 o hg ?_ h
                  exact hc
              | none =>
                  simp only [hmi] at h
                  cases heq : findCharFrom (trim (substrFrom bl 7)) '=' 0 with
                  | some eqPos =>
                      simp only [heq] at h
                      cases hev : evalSimpleExpression H n g
                          (stripSemi (trim (substrFrom (trim (substrFrom bl 7)) (eqPos + 1))))
                          ctx.vars (mkCallables ctx) ctx s with
                      | ok v2 sB oB =>
                          simp only [hev] at h
                          cases hcb : classBodyLoop H n g classLine className rest
                              { ctx with
                                vars := setA ctx.vars
                                  (className ++ str "." ++
                                    trim ((trim (substrFrom bl 7)).take eqPos)) v2 } sB with
                          | ok cB sC oC =>
                              simp only [hcb] at h
                              simp only [withOut] at h
                              cases h
                              refine ihCb H g classLine className rest _ sB _ _ _ hg ?_ hcb
                              exact setA_good hc
                                (ihE H g _ ctx.vars _ ctx s v2 sB oB hg hc hc hev)
                          | exn m sC oC => simp only [hcb] at h; simp only [withOut] at h; cases h
                          | ub => simp only [hcb] at h; simp only [withOut] at h; cases h
                          | hang => simp only [hcb] at h; simp only [withOut] at h; cases h
                          | nofuel => simp only [hcb] at h; simp only [withOut] at h; cases h
                      | exn m sB oB => simp only [hev] at h; cases h
                      | ub => simp only [hev] at h; cases h
                      | hang => simp only [hev] at h; cases h
                      | nofuel => simp only [hev] at h; cases h
                  | none =>
                      simp only [heq] at h
                      exact ihCb H g classLine className rest ctx s c2 s2 o hg hc h
            · rw [if_neg hst] at h
              exact ihCb H g classLine className rest ctx s c2 s2 o hg hc h
      -- PCallS
      · intro H g line po pc ctx s c2 s2 o hg hc h
        simp only [callStmt] at h
        cases hb : lookupA ctx.builtins (trim (line.take po)) with
        | some bn =>
            simp only [hb] at h
            cases hrb : runBuiltin H n g bn
                (parseArgs ctx.vars (substr line (po + 1) (pc - po - 1))) s with
            | ok vB sB oB => simp only [hrb] at h; cases h; exact hc
            | exn m sB oB => simp only [hrb] at h; cases h
            | ub => simp only [hrb] at h; cases h
            | hang => simp only [hrb] at h; cases h
            | nofuel => simp only [hrb] at h; cases h
        | none =>
            simp only [hb] at h
            cases hu : lookupA ctx.userFunctions (trim (line.take po)) with
            | some fd =>
                simp only [hu] at h
                by_cases hlen : ((parseArgs ctx.vars (substr line (po + 1) (pc - po - 1))).length
                    != fd.params.length) = true
                · rw [if_pos hlen] at h
                  cases h
                  exact hc
                · rw [if_neg hlen] at h
                  cases hty : typeCheckFirstErr fd.params fd.paramTypes
                      (parseArgs ctx.vars (substr line (po + 1) (pc - po - 1))) with
                  | some msg => simp only [hty] at h; cases h; exact hc
                  | none =>
                      simp only [hty] at h
                      cases hxl : executeLines H n g fd.bodyLines
                          { ctx with
                            vars := bindParams ctx.vars fd.params
                              (parseArgs ctx.vars (substr line (po + 1) (pc - po - 1))) } s with
                      | ok cB sB oB => simp only [hxl] at h; cases h; exact hc
                      | exn m sB oB => simp only [hxl] at h; cases h
                      | ub => simp only [hxl] at h; cases h
                      | hang => simp only [hxl] at h; cases h
                      | nofuel => simp only [hxl] at h; cases h
            | none =>
                simp only [hu] at h
                cases h
                exact hc
      -- PExe
      · intro H g line ctx s c2 s2 o hg hc h
        simp only [executeLine] at h
        by_cases h1 : (trim line).isEmpty = true
        · rw [if_pos h1] at h; cases h; exact hc
        · rw [if_neg h1] at h
          by_cases h2 : (charAt (trim line) 0 == '/' && charAt (trim line) 1 == '/') = true
          · rw [if_pos h2] at h; cases h; exact hc
          · rw [if_neg h2] at h
            by_cases h3 : strStartsWith (trim line) (str "let ") = true
            · rw [if_pos h3] at h
              exact ihL H g (trim line) ctx s c2 s2 o hg hc h
            · rw [if_neg h3] at h
              by_cases h4 : strStartsWith (trim line) (str "function ") = true
              · rw [if_pos h4] at h
                cases h
                exact hc
              · rw [if_neg h4] at h
                by_cases h5 : strStartsWith (trim line) (str "if ") = true
                · rw [if_pos h5] at h
                  exact ihI H g (trim line) ctx s c2 s2 o hg hc h
                · rw [if_neg h5] at h
                  by_cases h6 : strStartsWith (trim line) (str "class ") = true
                  · rw [if_pos h6] at h
                    exact ihCs H g (trim line) ctx s c2 s2 o hg hc h
                  · rw [if_neg h6] at h
                    cases hp1 : findCharFrom (trim line) '(' 0 with
                    | none =>
                        simp only [hp1] at h
                        cases h
                        exact hc
                    | some po2 =>
                        simp only [hp1] at h
                        cases hp2 : rfindChar (trim line) ')' with
                        | none => simp only [hp2] at h; cases h; exact hc
                        | some pc2 =>
                            simp only [hp2] at h
                            by_cases h7 : po2 < pc2
                            · rw [if_pos h7] at h
                              exact ihCa H g (trim line) po2 pc2 ctx s c2 s2 o hg hc h
                            · rw [if_neg h7] at h
                              cases h
                              exact hc
      -- PExs
      · intro H g lines ctx s c2 s2 o hg hc h
        cases lines with
        | nil =>
            simp only [executeLines] at h
            cases h
            exact hc
        | cons l rest =>
            simp only [executeLines] at h
            cases hex : executeLine H n g l ctx s with
            | ok cB sB oB =>
                simp only [hex] at h
                cases hx2 : executeLines H n g rest cB sB with
                | ok cC sC oC =>
                    simp only [hx2] at h
                    simp only [withOut] at h
                    cases h
                    exact ihXs H g rest cB sB _ _ _ hg
                      (ihX H g l ctx s cB sB oB hg hc hex) hx2
                | exn m sC oC => simp only [hx2] at h; simp only [withOut] at h; cases h
                | ub => simp only [hx2] at h; simp only [withOut] at h; cases h
                | hang => simp only [hx2] at h; simp only [withOut] at h; cases h
                | nofuel => simp only [hx2] at h; simp only [withOut] at h; cases h
            | exn m sB oB => simp only [hex] at h; cases h
            | ub => simp only [hex] at h; cases h
            | hang => simp only [hex] at h; cases h
            | nofuel => simp only [hex] at h; cases h



theorem renorm_spec : ∀ (f m : ℕ) (e : ℤ), 0 < m → m < 2048 → 1024 ≤ m * 2 ^ f →
    ∃ j, j ≤ f ∧ renormHalf f m e = (m * 2 ^ j, e - j) ∧ 1024 ≤ m * 2 ^ j ∧ m * 2 ^ j < 2048 := by
  intro f
  induction f with
  | zero =>
      intro m e hpos hlt hge
      refine ⟨0, le_refl 0, ?_, by simpa using hge, by simpa using hlt⟩
      simp [renormHalf]
  | succ f ih =>
      intro m e hpos hlt hge
      by_cases hm : 1024 ≤ m
      · refine ⟨0, Nat.zero_le _, ?_, by simpa using hm, by simpa using hlt⟩
        have hcond : ¬ (m / 1024 % 2 = 0) := by omega
        simp [renormHalf, hcond]
      · have hc : m / 1024 % 2 = 0 := by omega
        have hge2 : 1024 ≤ m * 2 * 2 ^ f := by
          have hp : m * 2 ^ (f + 1) = m * 2 * 2 ^ f := by ring
          omega
        obtain ⟨j, hj, hr, hge3, hlt3⟩ := ih (m * 2) (e - 1) (by omega) (by omega) hge2
        refine ⟨j + 1, by omega, ?_, ?_, ?_⟩
        · have hstep : renormHalf (f + 1) m e = renormHalf f (m * 2) (e - 1) := by
            simp [renormHalf, hc]
          rw [hstep, hr]
          have h1 : m * 2 * 2 ^ j = m * 2 ^ (j + 1) := by ring
          have h2 : e - 1 - (j : ℤ) = e - ((j : ℕ) + 1 : ℕ) := by push_cast; ring
          rw [h1, h2]
        · have h1 : m * 2 * 2 ^ j = m * 2 ^ (j + 1) := by ring
          omega
        · have h1 : m * 2 * 2 ^ j = m * 2 ^ (j + 1) := by ring
          omega

theorem rt_fields (s e m : ℕ) (hs : s < 2) (he : e < 32) (hm : m < 1024) :
    float_to_half (half_to_float (s * 32768 + e * 1024 + m)) = s * 32768 + e * 1024 + m := by
  have hx1 : (s * 32768 + e * 1024 + m) / 1024 % 32 = e := by omega
  have hx2 : (s * 32768 + e * 1024 + m) % 1024 = m := by omega
  have hx3 : (s * 32768 + e * 1024 + m) / 32768 % 2 = s := by omega
  simp only [half_to_float, hx1, hx2, hx3]
  by_cases he0 : e = 0
  · subst he0
    rw [if_pos rfl]
    by_cases hm0 : m = 0
    · subst hm0
      rw [if_pos rfl]
      have hz1 : s * 2147483648 / 2147483648 % 2 = s := by omega
      have hz2 : s * 2147483648 / 8388608 % 256 = 0 := by omega
      simp only [float_to_half, hz1, hz2]
      norm_num
    · rw [if_neg hm0]
      obtain ⟨j, hj, hr, hge, hlt⟩ :=
        renorm_spec 11 m 1 (by omega) (by omega) (by
          have : 1024 ≤ m * 2048 := by omega
          simpa using this)
      rw [hr]
      have hj1 : 1 ≤ j := by
        by_contra hj0
        have : j = 0 := by omega
        subst this
        simp at hge
        omega
      have hj10 : j ≤ 10 := by
        by_contra hj11
        have h11 : 11 ≤ j := by omega
        have : (2 : ℕ) ^ 11 ≤ 2 ^ j := Nat.pow_le_pow_right (by omega) h11
        have : 2048 ≤ m * 2 ^ j := by
          calc (2048 : ℕ) = 1 * 2 ^ 11 := by norm_num
          _ ≤ m * 2 ^ j := Nat.mul_le_mul (by omega) (by omega)
        omega
      -- name the renormalized mantissa
      generalize hprod : m * 2 ^ j = prod at hge hlt
      have he3 : ((1 : ℤ) - j + 112).toNat = 113 - j := by omega
      simp only [he3]
      -- the encoded 32-bit pattern, linear in prod and j
      have hy1 : (s * 2147483648 + (113 - j) * 8388608 + prod % 1024 * 8192) / 2147483648 % 2
          = s := by omega
      have hy2 : (s * 2147483648 + (113 - j) * 8388608 + prod % 1024 * 8192) / 8388608 % 256
          = 113 - j := by omega
      have hy3 : (s * 2147483648 + (113 - j) * 8388608 + prod % 1024 * 8192) % 8388608
          = prod % 1024 * 8192 := by omega
      simp only [float_to_half, hy1, hy2, hy3]
      have hexp : ((113 - j : ℕ) : ℤ) - 127 + 15 = 1 - j := by omega
      rw [hexp]
      have hc1 : (1 - (j : ℤ) ≤ 0) := by omega
      rw [if_pos hc1]
      have hc2 : ¬ ((1 : ℤ) - j < -10) := by omega
      rw [if_neg hc2]
      have htn : ((1 : ℤ) - (1 - (j : ℤ))).toNat = j := by omega
      rw [htn]
      -- prod % 1024 * 8192 + 8388608 = prod * 8192
      have hm2 : prod % 1024 * 8192 + 8388608 = prod * 8192 := by omega
      rw [hm2]
      -- prod * 8192 / 2 ^ j = m * 8192
      have hdiv : prod * 8192 / 2 ^ j = m * 8192 := by
        rw [← hprod]
        have : m * 2 ^ j * 8192 = m * 8192 * 2 ^ j := by ring
        rw [this]
        exact Nat.mul_div_cancel _ (Nat.pos_pow_of_pos j (by omega))
      rw [hdiv]
      omega
  · rw [if_neg he0]
    by_cases he31 : e = 31
    · subst he31
      rw [if_pos rfl]
      have hy1 : (s * 2147483648 + 2139095040 + m * 8192) / 2147483648 % 2 = s := by omega
      have hy2 : (s * 2147483648 + 2139095040 + m * 8192) / 8388608 % 256 = 255 := by omega
      have hy3 : (s * 2147483648 + 2139095040 + m * 8192) % 8388608 = m * 8192 := by omega
      simp only [float_to_half, hy1, hy2, hy3]
      have hexp1 : ¬ (((255 : ℕ) : ℤ) - 127 + 15 ≤ 0) := by norm_num
      rw [if_neg hexp1]
      have hexp2 : (((255 : ℕ) : ℤ) - 127 + 15 ≥ 31) := by norm_num
      rw [if_pos hexp2]
      by_cases hm0 : m = 0
      · subst hm0
        norm_num
      · have : ¬ (m * 8192 = 0) := by omega
        rw [if_neg this]
        omega
    · rw [if_neg he31]
      have hy1 : (s * 2147483648 + (e + 112) * 8388608 + m * 8192) / 2147483648 % 2 = s := by
        omega
      have hy2 : (s * 2147483648 + (e + 112) * 8388608 + m * 8192) / 8388608 % 256 = e + 112 := by
        omega
      have hy3 : (s * 2147483648 + (e + 112) * 8388608 + m * 8192) % 8388608 = m * 8192 := by
        omega
      simp only [float_to_half, hy1, hy2, hy3]
      have hc1 : ¬ (((e + 112 : ℕ) : ℤ) - 127 + 15 ≤ 0) := by omega
      rw [if_neg hc1]
      have hc2 : ¬ (((e + 112 : ℕ) : ℤ) - 127 + 15 ≥ 31) := by omega
      rw [if_neg hc2]
      omega

theorem half_roundtrip (h : ℕ) (hlt : h < 65536) :
    float_to_half (half_to_float h) = h := by
  have hmain := rt_fields (h / 32768) (h / 1024 % 32) (h % 1024) (by omega) (by omega) (by omega)
  have heq : h / 32768 * 32768 + h / 1024 % 32 * 1024 + h % 1024 = h := by omega
  rw [heq] at hmain
  exact hmain


set_option maxRecDepth 10000

/-- C1: Refuted.  Block bodies are not consumed from the script's own line
    cursor: the function-definition handler reads its body from the shared
    standard-input stream.  With empty stdin, the script
    `function f() \x7b / return 1; / \x7d` registers `f` with an *empty* body and
    the top-level loop then executes the two body lines itself, reporting
    them as unrecognized statements; with the body supplied on stdin
    instead, it is captured from there. -/
theorem C1_block_body_from_stdin :
    executeScript H0 6 [str "function f() \x7b", str "return 1;", str "\x7d"] ctx0 []
      = .ok { ctx0 with userFunctions := [(str "f", ⟨[], [], []⟩)] } []
          [str "Error: Unrecognized statement: return 1;\n",
           str "Error: Unrecognized statement: \x7d\n"]
    ∧ executeScript H0 6 [str "function g() \x7b"] ctx0 [str "return 2;", str "\x7d"]
      = .ok { ctx0 with userFunctions := [(str "g", ⟨[], [], [str "return 2;"]⟩)] } [] [] := by
  exact ⟨by decide, by decide⟩

/-- C2: Refuted.  `isOperator` returns a truthy constant for every token
    (its body is a comma-expression ending in the string literal `"%="`), so
    the shunting-yard `(`/`)` branches are dead code: for the call
    expression `f(1)` the parentheses fall through into the postfix output
    unchanged and no `#count` / `@name` markers are ever emitted. -/
theorem C2_call_encoding_broken :
    (∀ tok : Str, isOperator tok = true)
    ∧ tokenize (str "f(1)") = some [str "f", str "(", str "1", str ")"]
    ∧ shuntOutput [str "f", str "(", str "1", str ")"]
      = [str "f", str "1", str "(", str ")"] := by
  exact ⟨fun _ => rfl, by decide, by decide⟩

/-- C3: Refuted.  The tokenizer never coalesces `**` (it emits two separate
    `*` tokens), and because `isOperator` is truthy for every token the RPN
    loop treats even the first number as a binary operator and pops an empty
    operand stack: evaluating `2 ** 3 ** 2` is undefined behavior (an empty
    `std::stack` pop), not the Number 512. -/
theorem C3_power_expression_ub :
    tokenize (str "2 ** 3 ** 2")
      = some [str "2", str "*", str "*", str "3", str "*", str "*", str "2"]
    ∧ evalSimpleExpression H0 20 ctx0 (str "2 ** 3 ** 2") [] [] ctx0 [] = .ub := by
  exact ⟨by decide, by decide⟩

/-- C4 (amended): applying `/` to operands whose divisor converts to 0
    returns the *Number*-tagged quiet-NaN Value (`Value(std::nan(""))`), not
    the distinct NaN-tagged Value. -/
theorem C4_div_by_zero_number_tagged (H : HostModel) (a b : Value)
    (hb : b.toNumber = .num 0) :
    applyOpVal H (str "/") a b = Value.mkNum Dbl.nan := by
  have h1 : applyOpVal H (str "/") a b
      = Value.mkNum (if Dbl.beq b.toNumber (.num 0) then Dbl.nan
                     else Dbl.div a.toNumber b.toNumber) := rfl
  rw [h1, hb]
  rfl

theorem C4_witness :
    Value.toNumber (Value.mkNum (.num 0)) = .num 0
    ∧ applyOpVal H0 (str "/") (Value.mkNum (.num 5)) (Value.mkNum (.num 0))
        = Value.mkNum Dbl.nan :=
  ⟨rfl, C4_div_by_zero_number_tagged H0 (Value.mkNum (.num 5)) (Value.mkNum (.num 0)) rfl⟩

/-- C4 counterexample: the division result carries the Number tag, not the
    NaN tag, and evaluating the full expression `5 / 0` does not return a
    Value at all — it pops an empty operand stack (see C2/C3). -/
theorem C4_counterexample :
    (applyOpVal H0 (str "/") (Value.mkNum (.num 5)) (Value.mkNum (.num 0))).type
      = ValueType.Number
    ∧ ValueType.Number ≠ ValueType.NaN
    ∧ evalSimpleExpression H0 9 (initCtx H0) (str "5 / 0") [] [] (initCtx H0) [] = .ub := by
  exact ⟨by decide, by decide, by decide⟩

/-- C5: Refuted.  An unbound identifier is never pushed as Undefined: the
    always-true `isOperator` makes the RPN loop treat the lone identifier
    token as a binary operator, so evaluating `x` in an empty environment is
    undefined behavior (empty-stack pop).  Moreover nothing in the program
    can build an Undefined-tagged Value: the default constructor
    `Value::Value()` tags its result Null. -/
theorem C5_unknown_identifier_ub :
    evalSimpleExpression H0 9 ctx0 (str "x") [] [] ctx0 [] = .ub
    ∧ Value.mkNull.type = ValueType.Null
    ∧ ValueType.Null ≠ ValueType.Undefined := by
  exact ⟨by decide, by decide, by decide⟩

/-- C6: Confirmed.  A statement-level user-function call that passes the
    arity and type checks executes the body over a *copy* of the caller's
    environment extended with the bound parameters; whatever context the
    body produces is discarded, and the call returns the caller's Context
    unchanged (only stdin consumption and output escape). -/
theorem C6_call_isolation (H : HostModel) (n : ℕ) (g : Context) (rawLine line : Str)
    (ctx : Context) (s : Stdin) (po pc : ℕ) (fd : FunctionDef)
    (c2 : Context) (s2 : Stdin) (o2 : Output)
    (htrim : trim rawLine = line)
    (hne : line.isEmpty = false)
    (hnc : (charAt line 0 == '/' && charAt line 1 == '/') = false)
    (hlet : strStartsWith line (str "let ") = false)
    (hfn : strStartsWith line (str "function ") = false)
    (hif : strStartsWith line (str "if ") = false)
    (hcls : strStartsWith line (str "class ") = false)
    (hpo : findCharFrom line '(' 0 = some po)
    (hpc : rfindChar line ')' = some pc)
    (hlt : po < pc)
    (hbuiltin : lookupA ctx.builtins (trim (line.take po)) = none)
    (huser : lookupA ctx.userFunctions (trim (line.take po)) = some fd)
    (harity : (parseArgs ctx.vars (substr line (po + 1) (pc - po - 1))).length
        = fd.params.length)
    (htype : typeCheckFirstErr fd.params fd.paramTypes
        (parseArgs ctx.vars (substr line (po + 1) (pc - po - 1))) = none)
    (hbody : executeLines H n g fd.bodyLines
        { ctx with
          vars := bindParams ctx.vars fd.params
            (parseArgs ctx.vars (substr line (po + 1) (pc - po - 1))) }
        s = .ok c2 s2 o2) :
    executeLine H (n + 2) g rawLine ctx s = .ok ctx s2 o2 := by
  simp only [executeLine, htrim, hne, hnc, hlet, hfn, hif, hcls, hpo, hpc,
    Bool.false_eq_true, if_false]
  rw [if_pos hlt]
  simp only [callStmt, hbuiltin, huser]
  have harity2 : ((parseArgs ctx.vars (substr line (po + 1) (pc - po - 1))).length
      != fd.params.length) = false := by
    simp [harity]
  simp only [harity2, Bool.false_eq_true, if_false, htype, hbody]

theorem C6_witness :
    executeLine H0 8 ctxw (str "f()") ctxw [] = .ok ctxw [] [] :=
  C6_call_isolation H0 6 ctxw (str "f()") (str "f()") ctxw [] 1 2
    ⟨[], [], [str "let x = ;"]⟩
    ⟨[(str "x", Value.mkNull)], [],
     [(str "f", ⟨[], [], [str "let x = ;"]⟩)]⟩ [] []
    (by decide) (by decide) (by decide) (by decide) (by decide) (by decide)
    (by decide) (by decide) (by decide) (by decide) (by decide) (by decide)
    (by decide) (by decide) (by decide)

/-- C7: Refuted.  A statement-level builtin call is invoked with *no*
    try/catch around it, so a throwing builtin propagates its exception out
    of `executeLine` (and out of the whole run) instead of being reported
    and skipped: `assert()` with no arguments throws
    `assert() called with no arguments`, and that exception escapes. -/
theorem C7_assert_exception_escapes :
    executeLine H0 3 (initCtx H0) (str "assert()") (initCtx H0) []
      = .exn (str "assert() called with no arguments") [] [] := by
  decide

/-- C8: Confirmed.  Re-encoding the decoded 32-bit pattern of any 16-bit
    half pattern that is not a non-canonical NaN reproduces the pattern
    exactly, across zeros, subnormals, normals, infinities and the
    canonical NaNs of both signs. -/
theorem C8_roundtrip (h : ℕ) (h16 : h < 65536) (hnc : nonCanonicalNaN h = false) :
    float_to_half (half_to_float h) = h :=
  half_roundtrip h h16

theorem C8_witness :
    (0x3C00 : ℕ) < 65536
    ∧ nonCanonicalNaN 0x3C00 = false
    ∧ float_to_half (half_to_float 0x3C00) = 0x3C00 :=
  ⟨by decide, by decide, C8_roundtrip 0x3C00 (by decide) (by decide)⟩

/-- C9 (amended): only `+ - * / %` and `sqrt` on halves follow the
    decode-to-float, operate, re-encode composition.  `fmod` is an integer
    remainder of the raw bit patterns, and the `sin cos tan exp log`
    overloads are fixed-point bit manipulations: e.g. `exp` of the zero
    pattern yields 0x0400 (the subnormal pattern for 2^-15), not the
    encoding 0x3C00 of e^0 = 1. -/
theorem C9_half_ops_amended :
    (∀ f32op a b, halfBin f32op a b
        = float_to_half (f32op (half_to_float a) (half_to_float b)))
    ∧ (∀ f32op a, halfUn f32op a = float_to_half (f32op (half_to_float a)))
    ∧ (∀ a b, b % 2 ^ 15 ≠ 0 → fmodHalf a b = a % b)
    ∧ expHalf 0 = 0x0400
    ∧ f32val 0x3F800000 = 1
    ∧ float_to_half 0x3F800000 = 0x3C00
    ∧ (0x0400 : ℕ) ≠ 0x3C00 := by
  refine ⟨fun _ _ _ => rfl, fun _ _ => rfl, fun a b hb => ?_, by decide,
    by norm_num [f32val], by decide, by decide⟩
  unfold fmodHalf
  rw [if_neg hb]

theorem C9_witness :
    (2 : ℕ) % 2 ^ 15 ≠ 0 ∧ fmodHalf 5 2 = 5 % 2 :=
  ⟨by decide, C9_half_ops_amended.2.2.1 5 2 (by decide)⟩

/-- C9 counterexample: `fmod` on the halves encoding 2.0 (0x4000) and 1.5
    (0x3E00) returns the raw remainder 0x0200 (a subnormal), while the
    canonical decode-fmod-encode composition gives fmod(2, 1.5) = 0.5,
    whose float pattern 0x3F000000 re-encodes to the half 0x3800. -/
theorem C9_counterexample :
    fmodHalf 0x4000 0x3E00 = 0x0200
    ∧ f16val 0x4000 = 2
    ∧ f16val 0x3E00 = 3 / 2
    ∧ ratFmod 2 (3 / 2) = 1 / 2
    ∧ f32val 0x3F000000 = 1 / 2
    ∧ float_to_half 0x3F000000 = 0x3800
    ∧ (0x0200 : ℕ) ≠ 0x3800 := by
  have h2 : half_to_float 0x4000 = 0x40000000 := by decide
  have h32 : half_to_float 0x3E00 = 0x3FC00000 := by decide
  refine ⟨by decide, ?_, ?_, ?_, ?_, by decide, by decide⟩
  · simp only [f16val, h2]
    norm_num [f32val]
  · simp only [f16val, h32]
    norm_num [f32val]
  · norm_num [ratFmod, ratTrunc]
  · norm_num [f32val]

/-- C10: Confirmed.  Every Value the interpreter builds carries one of the
    four constructor tags Number, String, Boolean, Null; the Undefined and
    NaN tags are never attached.  In particular the `undefined` result is
    the Null-tagged default Value (whose toString is `null`) and the NaN
    result is a Number-tagged quiet NaN.  Goodness of Values and contexts
    is preserved by the operator applier, the expression evaluator and the
    statement executor. -/
theorem C10_value_tags :
    (∀ x, (Value.mkNum x).type = ValueType.Number)
    ∧ (∀ t, (Value.mkStr t).type = ValueType.String)
    ∧ (∀ bv, (Value.mkBool bv).type = ValueType.Boolean)
    ∧ Value.mkNull.type = ValueType.Null
    ∧ Value.mkNull.toString = str "null"
    ∧ (Value.mkNum Dbl.nan).type = ValueType.Number
    ∧ (∀ H op a b, goodV (applyOpVal H op a b))
    ∧ (∀ n H g expr env callables cctx s v s2 o, goodCtx g → goodEnv env → goodCtx cctx →
        evalSimpleExpression H n g expr env callables cctx s = .ok v s2 o → goodV v)
    ∧ (∀ n H g line ctx s c2 s2 o, goodCtx g → goodCtx ctx →
        executeLine H n g line ctx s = .ok c2 s2 o → goodCtx c2) := by
  refine ⟨fun _ => rfl, fun _ => rfl, fun _ => rfl, rfl, rfl, rfl, applyOpVal_good,
    ?_, ?_⟩
  · exact fun n => (goodness n).1
  · exact fun n => (goodness n).2.2.2.2.2.2.2.2.2.1

theorem C10_witness :
    goodCtx ctx0
    ∧ evalSimpleExpression H0 2 ctx0 [] [] [] ctx0 [] = .ok Value.mkNull [] []
    ∧ goodV Value.mkNull :=
  ⟨by simp [goodCtx, goodEnv, ctx0], by decide,
   C10_value_tags.2.2.2.2.2.2.2.1 2 H0 ctx0 [] [] [] ctx0 [] Value.mkNull [] []
     (by simp [goodCtx, goodEnv, ctx0]) (by simp [goodEnv])
     (by simp [goodCtx, goodEnv, ctx0]) (by decide)⟩

end AnyTS
